import Mathlib

/-!
Verification of the heuristic HTML content-extraction engine in
`web_scraper.py` (functions `search_text_by_keyword`, `list_all_images`,
`search_image_by_keyword`, `search_link_by_keyword`,
`scrape_section_by_heading`, `scrape_result_list`, `scrape_card_results`).

The document tree is embedded as an inductive `Node` mirroring the parsed
HTML tree BeautifulSoup exposes; element traversal, `get_text`, attribute
lookup and the URL normalisers are translated function by function from the
Python source.  Definitions whose name matches a Python symbol are direct
translations of that symbol.
-/

namespace WebScraper

/-! ### Python string primitives

All string operations are carried out on `List Char` (`String.data`) so that
every definition reduces inside the kernel.  They model the CPython `str`
methods used by the scraper, restricted to ASCII case mapping (all keyword
vocabularies and messages in the source are ASCII). -/

/-- Whitespace characters recognised by Python `str.strip` / `str.split` /
regex `\s` (ASCII range). -/
def pyWsChar (c : Char) : Bool :=
  c = ' ' || c = '\t' || c = '\n' || c = '\x0d' || c = '\x0b' || c = '\x0c'

/-- Python `str.strip()` on the character list. -/
def stripChars (l : List Char) : List Char :=
  ((l.dropWhile pyWsChar).reverse.dropWhile pyWsChar).reverse

/-- Python `str.strip()`. -/
def pyStrip (s : String) : String := String.mk (stripChars s.data)

/-- Helper for `pySplit`: split a character list on maximal whitespace runs. -/
def splitWsAux : List Char → List Char → List (List Char)
  | [], acc => if acc.isEmpty then [] else [acc.reverse]
  | c :: cs, acc =>
    if pyWsChar c then
      if acc.isEmpty then splitWsAux cs [] else acc.reverse :: splitWsAux cs []
    else splitWsAux cs (c :: acc)

/-- Python `str.split()` (no argument): split on whitespace runs, dropping
empty fields. -/
def pySplit (s : String) : List String :=
  (splitWsAux s.data []).map String.mk

/-- Python `' '.join(xs)`. -/
def joinSpace (xs : List String) : String :=
  String.mk (List.intercalate [' '] (xs.map String.data))

/-- Python `sep.join(xs)` for a general separator. -/
def joinSep (sep : String) (xs : List String) : String :=
  String.mk (List.intercalate sep.data (xs.map String.data))

/-- ASCII lower-casing, modelling Python `str.lower()` on ASCII input. -/
def lowerChar (c : Char) : Char :=
  if 'A' ≤ c ∧ c ≤ 'Z' then Char.ofNat (c.toNat + 32) else c

/-- Python `str.lower()`. -/
def pyLower (s : String) : String := String.mk (s.data.map lowerChar)

/-- Boolean infix (contiguous sublist) test on character lists. -/
def listContainsSub (needle : List Char) : List Char → Bool
  | [] => needle.isEmpty
  | c :: cs => needle.isPrefixOf (c :: cs) || listContainsSub needle cs

/-- Python `needle in hay` substring test. -/
def pyContains (hay needle : String) : Bool :=
  listContainsSub needle.data hay.data

/-- Python `s.startswith(p)`. -/
def strStarts (p s : String) : Bool :=
  p.data.isPrefixOf s.data

/-- Python `s.endswith(p)` (used only through the regex `$` anchor). -/
def strEnds (p s : String) : Bool :=
  p.data.reverse.isPrefixOf s.data.reverse

/-- Python `s.replace(old, new, 1)` restricted to `new = ''` — remove the
first occurrence of `old` in `s` (no-op when `old` is absent; Python's
`replace` with an empty pattern inserts at position 0, i.e. is the identity
for an empty replacement). -/
def removeFirstAux (old : List Char) : List Char → List Char
  | [] => []
  | c :: cs =>
    if old.isPrefixOf (c :: cs) then (c :: cs).drop old.length
    else c :: removeFirstAux old cs

/-- Python `s.replace(old, '', 1)`. -/
def removeFirst (s old : String) : String :=
  if old.data.isEmpty then s else String.mk (removeFirstAux old.data s.data)

/-- A single-quote character, used to build the scraper's messages. -/
def sq : String := String.mk [Char.ofNat 39]

/-! ### Model of `urllib.parse.urljoin`

The scraper calls `urljoin(base, rel)` only after peeling off
protocol-relative (`//…`) and already-absolute (`http(s)://…`) forms, so the
reference reaching `urljoin` carries no scheme or authority component of its
own.  The model below implements RFC 3986 relative resolution for such
references against an absolute `scheme://netloc/path?query#fragment` base,
which is exactly what CPython's `urljoin` computes on these inputs. -/

structure UrlParts where
  scheme : String
  netloc : String
  path : String
  query : String
  fragment : String
deriving DecidableEq

/-- Split a character list at the first occurrence of `c`; the second
component is the remainder after `c` (empty when `c` is absent, with flag
`false`). -/
def splitAtChar (c : Char) : List Char → List Char × List Char × Bool
  | [] => ([], [], false)
  | d :: ds =>
    if d = c then ([], ds, true)
    else
      let r := splitAtChar c ds
      (d :: r.1, r.2.1, r.2.2)

/-- Parse an absolute URL of the shape `scheme://netloc/path?query#fragment`. -/
def parseUrl (s : String) : UrlParts :=
  let (noFrag, frag, _) := splitAtChar '#' s.data
  let (noQuery, query, _) := splitAtChar '?' noFrag
  let (beforeColon, afterColon, hasColon) := splitAtChar ':' noQuery
  if hasColon ∧ ['/', '/'].isPrefixOf afterColon then
    let rest := afterColon.drop 2
    let (netloc, pathRest, hasSlash) := splitAtChar '/' rest
    { scheme := String.mk beforeColon, netloc := String.mk netloc,
      path := if hasSlash then String.mk ('/' :: pathRest) else "",
      query := String.mk query, fragment := String.mk frag }
  else
    { scheme := "", netloc := "",
      path := String.mk noQuery, query := String.mk query,
      fragment := String.mk frag }

/-- RFC 3986 `remove_dot_segments`, on a `/`-separated path. -/
def removeDotSegs (p : String) : String :=
  let segs := p.data.splitOn '/'
  let step : List (List Char) → List Char → List (List Char) :=
    fun stack seg =>
      if seg = ['.'] then stack
      else if seg = ['.', '.'] then stack.dropLast
      else stack ++ [seg]
  let segs' := match segs with
    | [] => []
    | first :: rest => first :: rest.foldl step []
  String.mk (List.intercalate ['/'] segs')

/-- Recompose a URL from its parts (`urllib.parse.urlunsplit`). -/
def buildUrl (u : UrlParts) : String :=
  (if u.scheme = "" then "" else u.scheme ++ "://") ++ u.netloc ++ u.path ++
    (if u.query = "" then "" else "?" ++ u.query) ++
    (if u.fragment = "" then "" else "#" ++ u.fragment)

/-- Merge a base path with a plain relative path (RFC 3986 §5.3 "merge"). -/
def mergePaths (basePath rel : String) (hasNetloc : Bool) : String :=
  if hasNetloc ∧ basePath = "" then "/" ++ rel
  else
    let b := basePath.data
    let upToSlash := (b.reverse.dropWhile (· ≠ '/')).reverse
    String.mk (upToSlash ++ rel.data)

/-- Model of `urllib.parse.urljoin` for scheme-less, authority-less
references against an absolute base (the only shape of call the scraper
makes). -/
def pyUrljoin (base rel : String) : String :=
  if base = "" then rel
  else if rel = "" then base
  else
    let b := parseUrl base
    let (noFrag, frag, _) := splitAtChar '#' rel.data
    let (rpath, rquery, _) := splitAtChar '?' noFrag
    if rpath = [] then
      buildUrl { b with
        query := if rquery = [] then b.query else String.mk rquery,
        fragment := String.mk frag }
    else if rpath.head? = some '/' then
      buildUrl { b with
        path := removeDotSegs (String.mk rpath),
        query := String.mk rquery, fragment := String.mk frag }
    else
      buildUrl { b with
        path := removeDotSegs (mergePaths b.path (String.mk rpath) (b.netloc ≠ "")),
        query := String.mk rquery, fragment := String.mk frag }

/-! ### The parsed document tree

`Node` models the BeautifulSoup tree: element tags with an attribute list
and children, and navigable strings.  The whole parsed page is a root
element (the `BeautifulSoup` object itself); `find_all`-style searches on
the root range over its descendants only, exactly as in bs4.  bs4 compares
tags structurally (`Tag.__eq__` checks name, attributes and contents
recursively), which `DecidableEq` mirrors. -/

inductive Node where
  | elem (tag : String) (attrs : List (String × String)) (children : List Node)
  | text (s : String)

mutual
/-- Decidable structural equality of nodes (bs4 `Tag.__eq__`). -/
def nodeDecEq : (a b : Node) → Decidable (a = b)
  | .text s, .text t =>
    match decEq s t with
    | isTrue h => isTrue (by rw [h])
    | isFalse h => isFalse (fun hh => by cases hh; exact h rfl)
  | .text _, .elem _ _ _ => isFalse (fun h => Node.noConfusion h)
  | .elem _ _ _, .text _ => isFalse (fun h => Node.noConfusion h)
  | .elem t1 a1 c1, .elem t2 a2 c2 =>
    match decEq t1 t2, decEq a1 a2, nodesDecEq c1 c2 with
    | isTrue h1, isTrue h2, isTrue h3 => isTrue (by rw [h1, h2, h3])
    | isFalse h1, _, _ => isFalse (fun hh => by cases hh; exact h1 rfl)
    | _, isFalse h2, _ => isFalse (fun hh => by cases hh; exact h2 rfl)
    | _, _, isFalse h3 => isFalse (fun hh => by cases hh; exact h3 rfl)
/-- Decidable structural equality of node lists. -/
def nodesDecEq : (a b : List Node) → Decidable (a = b)
  | [], [] => isTrue rfl
  | [], _ :: _ => isFalse (fun h => List.noConfusion h)
  | _ :: _, [] => isFalse (fun h => List.noConfusion h)
  | c :: cs, d :: ds =>
    match nodeDecEq c d, nodesDecEq cs ds with
    | isTrue h1, isTrue h2 => isTrue (by rw [h1, h2])
    | isFalse h1, _ => isFalse (fun hh => by cases hh; exact h1 rfl)
    | _, isFalse h2 => isFalse (fun hh => by cases hh; exact h2 rfl)
end

instance : DecidableEq Node := nodeDecEq

/-- Tag name of an element (`None` for a string node). -/
def Node.tagName : Node → Option String
  | .elem t _ _ => some t
  | .text _ => none

/-- Attribute lookup, Python `tag.get(name)` (`None` when absent). -/
def Node.attr : Node → String → Option String
  | .elem _ attrs _, name => (attrs.find? (fun p => p.1 = name)).map Prod.snd
  | .text _, _ => none

/-- Attribute lookup with default, Python `tag.get(name, d)`. -/
def Node.attrD (n : Node) (name d : String) : String := (n.attr name).getD d

/-- Does the node carry the attribute at all (bs4 `find(attr=True)`)? -/
def Node.hasAttr (n : Node) (name : String) : Bool := (n.attr name).isSome

/-- Is this node an element with the given tag name? -/
def Node.isTag (n : Node) (t : String) : Bool := n.tagName = some t

/-- Is this node an element whose tag is in the given set? -/
def Node.tagIn (n : Node) (ts : List String) : Bool :=
  match n.tagName with
  | some t => ts.contains t
  | none => false

mutual
/-- All descendant string-node contents of a node, in document order
(bs4 `self.strings`), not including the node itself when it is a string. -/
def nodeStrings : Node → List String
  | .text s => [s]
  | .elem _ _ cs => nodesStrings cs
def nodesStrings : List Node → List String
  | [] => []
  | c :: cs => nodeStrings c ++ nodesStrings cs
end

/-- bs4 `get_text(strip=True)`: strip every descendant string, drop the
empty ones, concatenate with no separator. -/
def getTextStrip (n : Node) : String :=
  String.mk ((((nodeStrings n).map pyStrip).filter (· ≠ "")).map String.data).flatten

/-- bs4 `get_text(separator=' ', strip=True)`. -/
def getTextSepStrip (n : Node) : String :=
  joinSpace (((nodeStrings n).map pyStrip).filter (· ≠ ""))

mutual
/-- A subtree's elements in document order: the node itself when it is an
element, followed by its descendant elements (preorder). -/
def selfAndDescendants : Node → List Node
  | .text _ => []
  | .elem t a cs => .elem t a cs :: descendantsList cs
/-- Elements of a forest in document order. -/
def descendantsList : List Node → List Node
  | [] => []
  | c :: cs => selfAndDescendants c ++ descendantsList cs
end

/-- All descendant elements of a node in document order (preorder), the
node itself excluded — bs4 `find_all(True)` order. -/
def descendants : Node → List Node
  | .text _ => []
  | .elem _ _ cs => descendantsList cs

/-- bs4 `find_all([tags])` on a node: descendant elements whose tag is in
the list, in document order. -/
def findAllTags (n : Node) (ts : List String) : List Node :=
  (descendants n).filter (fun d => d.tagIn ts)

/-- bs4 `find([tags])`: first matching descendant, document order. -/
def findFirstTag (n : Node) (ts : List String) : Option Node :=
  (descendants n).find? (fun d => d.tagIn ts)

/-- bs4 `find('a', href=True)`: first descendant anchor carrying an `href`
attribute. -/
def findAnchorHref (n : Node) : Option Node :=
  (descendants n).find? (fun d => d.isTag "a" && d.hasAttr "href")

/-- bs4 `find('img')`. -/
def findImg (n : Node) : Option Node :=
  (descendants n).find? (fun d => d.isTag "img")

/-- Direct element children with a given tag
(bs4 `find_all(tag, recursive=False)`). -/
def directChildren (n : Node) (ts : List String) : List Node :=
  match n with
  | .text _ => []
  | .elem _ _ cs => cs.filter (fun c => c.tagIn ts)

/-- Is the node a `script` or `style` element? -/
def isScriptStyle (n : Node) : Bool :=
  n.isTag "script" || n.isTag "style"

mutual
/-- Removal of `script`/`style` subtrees, modelling the
`for script in soup(["script", "style"]): script.decompose()` passes. -/
def removeScriptStyle : Node → Node
  | .text s => .text s
  | .elem t a cs => .elem t a (removeScriptStyleList cs)
/-- Script/style removal over a forest. -/
def removeScriptStyleList : List Node → List Node
  | [] => []
  | c :: cs =>
    (if isScriptStyle c then [] else [removeScriptStyle c]) ++
      removeScriptStyleList cs
end

/-- Position of an element in the tree: the element itself, its following
siblings (bs4 `next_siblings`, string nodes included), and its ancestor
chain nearest-first, each ancestor paired with that ancestor's own
following siblings.  The root element (the soup object) is the last chain
entry. -/
structure Ctx where
  node : Node
  after : List Node
  chain : List (Node × List Node)
deriving DecidableEq

mutual
/-- Contexts of all elements in a subtree, in document order. -/
def ctxNode (chain : List (Node × List Node)) : Node → List Node → List Ctx
  | .text _, _ => []
  | .elem t a cs, after =>
    ⟨.elem t a cs, after, chain⟩ ::
      ctxNodes ((Node.elem t a cs, after) :: chain) cs
def ctxNodes (chain : List (Node × List Node)) : List Node → List Ctx
  | [] => []
  | c :: cs => ctxNode chain c cs ++ ctxNodes chain cs
end

/-- Contexts of every element of the document, the root (soup) excluded,
in document order. -/
def ctxAll (doc : Node) : List Ctx :=
  match doc with
  | .text _ => []
  | .elem t a cs => ctxNodes [(Node.elem t a cs, [])] cs

/-- bs4 `find_parent([tags])` seen from a context: the nearest ancestor
whose tag is in the list. -/
def Ctx.findParent (c : Ctx) (ts : List String) : Option Node :=
  ((c.chain.map Prod.fst).find? (fun p => p.tagIn ts))

/-- Python `' '.join(tag.get('class', []))`: bs4 splits the class attribute
on whitespace into a token list; joining restores a single-spaced string. -/
def classJoined (n : Node) : String :=
  joinSpace (pySplit (n.attrD "class" ""))

/-! ### URL normalisers

Each scraper function defines its own local normaliser; the image variants
(`list_all_images.normalize_image_url`, `search_image_by_keyword`,
`scrape_card_results.normalize_image_url`) share one body without a `#`
branch, while the link variants (`search_link_by_keyword.normalize_link_url`,
`scrape_result_list.normalize_url`, `scrape_card_results.normalize_url`)
share a body with an extra `#` branch. -/

/-- `normalize_image_url(img_url)` closed over the page URL `base`
(the final two Python branches both call `urljoin` and are kept separate
here to mirror the source). -/
def normalize_image_url (u base : String) : String :=
  if u = "" then ""
  else if strStarts "//" u then "https:" ++ u
  else if strStarts "http://" u || strStarts "https://" u then u
  else if strStarts "/" u then pyUrljoin base u
  else pyUrljoin base u

/-- `normalize_link_url(link_url)` closed over the page URL `base`. -/
def normalize_link_url (u base : String) : String :=
  if u = "" then ""
  else if strStarts "//" u then "https:" ++ u
  else if strStarts "http://" u || strStarts "https://" u then u
  else if strStarts "/" u then pyUrljoin base u
  else if strStarts "#" u then base ++ u
  else pyUrljoin base u

/-- `scrape_result_list.normalize_url(link_url, base_url)` — textually the
same branches as `normalize_link_url`. -/
def normalize_url (u base : String) : String :=
  if u = "" then ""
  else if strStarts "//" u then "https:" ++ u
  else if strStarts "http://" u || strStarts "https://" u then u
  else if strStarts "/" u then pyUrljoin base u
  else if strStarts "#" u then base ++ u
  else pyUrljoin base u

/-! ### Result values

Python returns a bare string both for the single-match case and for the
"Not found" marker, or a list for several matches; the sum below keeps the
two runtime shapes (`str` versus `list`) apart. -/

inductive SRes where
  | str (s : String)
  | list (l : List String)
deriving DecidableEq

/-- The tag set scanned by `search_text_by_keyword`. -/
def textTags : List String :=
  ["p", "div", "span", "h1", "h2", "h3", "h4", "h5", "h6", "li", "td", "th",
   "article", "section"]

/-- Appending step of the `found_texts` accumulation: Python
`if s and s not in found_texts: found_texts.append(s)`. -/
def addIfNew (acc : List String) (s : String) : List String :=
  if s ≠ "" ∧ s ∉ acc then acc ++ [s] else acc

/-- The element-scan phase of `search_text_by_keyword`: for a candidate
element, the full text it contributes when its text matches the keyword. -/
def elemMatchText (cs : Bool) (kwl : String) (el : Node) : Option String :=
  let t := getTextStrip el
  if t ≠ "" ∧ pyContains (if cs then t else pyLower t) kwl then
    let full := getTextSepStrip el
    if full ≠ "" then some full else none
  else none

/-- The alt-scan phase of `search_text_by_keyword`: the tagged placeholder an
`img` contributes when its `alt` text matches the keyword. -/
def altMatchText (cs : Bool) (kwl : String) (img : Node) : Option String :=
  let alt := img.attrD "alt" ""
  if alt ≠ "" ∧ pyContains (if cs then alt else pyLower alt) kwl then
    some ("[Image Alt Text] " ++ alt)
  else none

/-- The deduplicated `found_texts` list built by `search_text_by_keyword`
(after script/style removal). -/
def foundTexts (doc : Node) (keyword : String) (caseSensitive : Bool) : List String :=
  let d := removeScriptStyle doc
  let kwl := if caseSensitive then keyword else pyLower keyword
  let afterElems :=
    (findAllTags d textTags).foldl
      (fun acc el => match elemMatchText caseSensitive kwl el with
        | some full => addIfNew acc full
        | none => acc) []
  ((descendants d).filter (fun n => n.isTag "img" && n.hasAttr "alt")).foldl
    (fun acc img => match altMatchText caseSensitive kwl img with
      | some ctx => addIfNew acc ctx
      | none => acc) afterElems

/-- The "Not found" message of `search_text_by_keyword`. -/
def notFoundTextMsg (keyword : String) : String :=
  "Not found - No text containing " ++ sq ++ keyword ++ sq ++ " was found"

/-- `search_text_by_keyword(url, keyword, case_sensitive)` on a fetched
document. -/
def search_text_by_keyword (doc : Node) (keyword : String)
    (caseSensitive : Bool) : SRes :=
  match foundTexts doc keyword caseSensitive with
  | [] => .str (notFoundTextMsg keyword)
  | [x] => .str x
  | xs => .list xs

/-- The `src`/lazy-loading attribute priority chain shared by every image
reader: the first of the five attributes present with a non-empty value. -/
def imgSrcAttr (img : Node) : Option String :=
  ["src", "data-src", "data-lazy-src", "data-original", "data-url"].findSome?
    (fun a => match img.attr a with
      | some v => if v ≠ "" then some v else none
      | none => none)

/-- One image's contribution step in `search_image_by_keyword`:
`if img_url: n = normalize; if n and n not in found: found.append(n)`. -/
def addImage (base : String) (acc : List String) (img : Node) : List String :=
  match imgSrcAttr img with
  | some raw =>
    let n := normalize_image_url raw base
    if n ≠ "" ∧ n ∉ acc then acc ++ [n] else acc
  | none => acc

/-- `search_image_by_keyword(url, keyword)` on a fetched document whose page
URL is `base`: always a bare list of URLs (empty when nothing matches). -/
def search_image_by_keyword (doc : Node) (base keyword : String) : List String :=
  let kwl := pyLower keyword
  ((ctxAll doc).filter (fun c => c.node.isTag "img")).foldl
    (fun acc c =>
      let alt := pyLower (c.node.attrD "alt" "")
      let title := pyLower (c.node.attrD "title" "")
      let cls := pyLower (classJoined c.node)
      let acc :=
        if pyContains alt kwl || pyContains title kwl || pyContains cls kwl then
          addImage base acc c.node
        else acc
      match c.findParent ["div", "section", "article", "figure"] with
      | some p =>
        if pyContains (pyLower (getTextStrip p)) kwl then addImage base acc c.node
        else acc
      | none => acc) []

/-- The per-anchor contribution of `search_link_by_keyword`. -/
def linkMatchStep (base kwl : String) (acc : List String) (link : Node) : List String :=
  let linkText := pyLower (getTextStrip link)
  let href := link.attrD "href" ""
  let hrefLower := pyLower href
  let title := pyLower (link.attrD "title" "")
  let cls := pyLower (classJoined link)
  if pyContains linkText kwl || pyContains hrefLower kwl ||
      pyContains title kwl || pyContains cls kwl then
    if href ≠ "" ∧ ¬ strStarts "javascript:" href then
      let n := normalize_link_url href base
      if n ≠ "" ∧ n ∉ acc then acc ++ [n] else acc
    else acc
  else acc

/-- The deduplicated `found_links` list of `search_link_by_keyword`. -/
def foundLinks (doc : Node) (base keyword : String) : List String :=
  let kwl := pyLower keyword
  ((descendants doc).filter (fun n => n.isTag "a" && n.hasAttr "href")).foldl
    (linkMatchStep base kwl) []

/-- The "Not found" message of `search_link_by_keyword`. -/
def notFoundLinkMsg (keyword : String) : String :=
  "Not found - No links containing " ++ sq ++ keyword ++ sq ++ " were found"

/-- `search_link_by_keyword(url, keyword)` on a fetched document whose page
URL is `base`. -/
def search_link_by_keyword (doc : Node) (base keyword : String) : SRes :=
  match foundLinks doc base keyword with
  | [] => .str (notFoundLinkMsg keyword)
  | [x] => .str x
  | xs => .list xs

/-! ### `scrape_section_by_heading` -/

/-- The element list scanned by Methods 1 and 3 of
`scrape_section_by_heading`. -/
def sectionTags : List String :=
  ["h2", "h3", "p", "ul", "ol", "div", "article", "section"]

/-- The block tags whose text the collection methods accumulate. -/
def sectionBlockTags : List String :=
  ["p", "ul", "ol", "div", "article", "section"]

/-- The first `h2`/`h3` whose lower-cased text contains the lower-cased
heading keyword, with its tree context. -/
def targetHeading (d : Node) (kwl : String) : Option Ctx :=
  ((ctxAll d).filter (fun c => c.node.tagIn ["h2", "h3"])).find?
    (fun c => pyContains (pyLower (getTextStrip c.node)) kwl)

/-- The Method-1 / Method-3 scan: walk the element list, start collecting
after an element structurally equal to the target heading (bs4 `==` is
structural), stop at the next `h2`/`h3`, and record each non-empty block
text.  A later copy of the target heading re-arms collection and is
skipped, exactly as the Python `if elem == target_heading: continue`
branch does before the heading-stop test. -/
def flatScan (target : Node) (collecting : Bool) : List Node → List String
  | [] => []
  | e :: es =>
    if e = target then flatScan target true es
    else if collecting ∧ e.tagIn ["h2", "h3"] then []
    else if collecting ∧ e.tagIn sectionBlockTags then
      let t := getTextSepStrip e
      if t ≠ "" then t :: flatScan target collecting es
      else flatScan target collecting es
    else flatScan target collecting es

/-- Method 1: flat scan over every element of the document. -/
def method1Parts (d : Node) (target : Node) : List String :=
  flatScan target false (findAllTags d sectionTags)

/-- Method 2's sibling walk: collect the text of block-level following
siblings of the heading's parent until a sibling that is itself an
`h2`/`h3`.  String siblings carry `name = None` in bs4 and fall through
both tag branches; the `elif hasattr(sibling, 'find_all')` branch of the
source is unreachable because every `Tag` already has `name`. -/
def siblingWalk : List Node → List String
  | [] => []
  | s :: ss =>
    match s.tagName with
    | none => siblingWalk ss
    | some nm =>
      if nm = "h2" ∨ nm = "h3" then []
      else if sectionBlockTags.contains nm then
        let t := getTextSepStrip s
        if t ≠ "" then t :: siblingWalk ss else siblingWalk ss
      else siblingWalk ss

/-- Method 2: walk the following siblings of the target heading's parent. -/
def method2Parts (t : Ctx) : List String :=
  match t.chain.head? with
  | none => []
  | some (_, parentAfter) => siblingWalk parentAfter

/-- Method 3: repeat the flat scan inside the nearest
`article`/`main`/`section`/`body` ancestor (falling back to the document's
`body`, then to the whole document). -/
def method3Parts (d : Node) (t : Ctx) : List String :=
  let container :=
    match t.findParent ["article", "main", "section", "body"] with
    | some p => p
    | none =>
      match findFirstTag d ["body"] with
      | some b => b
      | none => d
  flatScan t.node false (findAllTags container sectionTags)

/-- The `content_parts` list produced by the ordered fallback chain of
collection methods. -/
def sectionParts (d : Node) (t : Ctx) : List String :=
  let p1 := method1Parts d t.node
  if p1 ≠ [] then p1
  else
    let p2 := method2Parts t
    if p2 ≠ [] then p2
    else method3Parts d t

/-- Python `' '.join(part.split())`: collapse interior whitespace. -/
def collapseWs (s : String) : String := joinSpace (pySplit s)

/-- The survivor computation of `scrape_section_by_heading`: normalise each
part, keep it when it is non-empty, unseen and longer than 10 characters,
remembering kept parts in `seen`. -/
def sectionSurvivors (seen : List String) : List String → List String
  | [] => []
  | p :: ps =>
    let n := collapseWs p
    if n ≠ "" ∧ n ∉ seen ∧ 10 < n.length then
      n :: sectionSurvivors (n :: seen) ps
    else sectionSurvivors seen ps

/-- The heading-not-found message of `scrape_section_by_heading`. -/
def notFoundHeadingMsg (headingKeyword : String) : String :=
  "Not found - No heading containing " ++ sq ++ headingKeyword ++ sq ++
    " was found"

/-- The heading-found-but-empty message of `scrape_section_by_heading`. -/
def noContentMsg (headingText : String) : String :=
  "Found heading " ++ sq ++ headingText ++ sq ++ " but no content found below it"

/-- `scrape_section_by_heading(url, heading_keyword)` on a fetched document. -/
def scrape_section_by_heading (doc : Node) (headingKeyword : String) : String :=
  let d := removeScriptStyle doc
  match targetHeading d (pyLower headingKeyword) with
  | none => notFoundHeadingMsg headingKeyword
  | some t =>
    let parts := sectionParts d t
    let survivors := sectionSurvivors [] parts
    if survivors ≠ [] then joinSpace survivors
    else noContentMsg (getTextStrip t.node)

/-! ### `scrape_result_list` -/

/-- The status vocabulary of the first status pattern, in alternation
order. -/
def statusKeywords : List String :=
  ["Out", "Final Result", "Start", "Last Date", "Date Extend", "Reminder",
   "Booking"]

/-- Case-insensitive keyword match at the head of a character list,
returning the matched slice in its original casing (regex alternation
tried in vocabulary order). -/
def statusKeywordAt (cs : List Char) : Option String :=
  statusKeywords.findSome? (fun kw =>
    if (kw.data.map lowerChar).isPrefixOf (cs.map lowerChar) then
      some (String.mk (cs.take kw.data.length))
    else none)

/-- The first status regex
`\s*-\s*(Out|Final Result|Start|Last Date|Date Extend|Reminder|Booking)`
(case-insensitive): its leftmost match captures the keyword following the
first `-` that is separated from a vocabulary word only by whitespace. -/
def dashStatus : List Char → Option String
  | [] => none
  | c :: cs =>
    if c = '-' then
      match statusKeywordAt (cs.dropWhile pyWsChar) with
      | some kw => some kw
      | none => dashStatus cs
    else dashStatus cs

/-- The second status regex `\((.*?)\)$`: the text must end in `)`; the
capture starts after the first `(` whose span to the final `)` contains no
newline (regex `.` excludes newlines).  The argument is the text with its
final `)` removed. -/
def parenBody : List Char → Option String
  | [] => none
  | c :: cs =>
    if c = '(' then
      if cs.contains '\n' then parenBody cs else some (String.mk cs)
    else parenBody cs

/-- The ordered status-pattern match of `extract_result_item`. -/
def extractStatus (text : String) : String :=
  match dashStatus text.data with
  | some kw => kw
  | none =>
    if text.data.getLast? = some ')' then
      match parenBody text.data.dropLast with
      | some body => body
      | none => ""
    else ""

/-- A `ListRecord` as emitted by `scrape_result_list`. -/
structure ListRecord where
  index : Nat
  title : String
  link : String
  text : String
  status : String
deriving DecidableEq

/-- `extract_result_item(item_element)` (without the index, which the
caller assigns): link/title/text from the first descendant anchor, else
from the item itself when it is an anchor with a non-empty `href`, else
the item's own text; then the status patterns against `text`. -/
def extract_result_item (base : String) (item : Node) : ListRecord :=
  let r0 : ListRecord := { index := 0, title := "", link := "", text := "", status := "" }
  let r :=
    match findAnchorHref item with
    | some a =>
      let withLink := { r0 with link := normalize_url (a.attrD "href" "") base }
      let lt := getTextStrip a
      if lt ≠ "" then { withLink with title := lt, text := lt } else withLink
    | none =>
      if item.isTag "a" ∧ item.attrD "href" "" ≠ "" then
        let withLink := { r0 with link := normalize_url (item.attrD "href" "") base }
        let lt := getTextStrip item
        if lt ≠ "" then { withLink with title := lt, text := lt } else withLink
      else
        let t := getTextStrip item
        if t ≠ "" then { r0 with title := t, text := t } else r0
  if r.text ≠ "" then { r with status := extractStatus r.text } else r

/-- The emission loop shared by every return site of `scrape_result_list`
(`for idx, item in enumerate(items, 1): … if title or text: index := idx;
append`), starting the counter at `k`. -/
def emitRecordsFrom (base : String) (k : Nat) : List Node → List ListRecord
  | [] => []
  | it :: its =>
    let r := extract_result_item base it
    if r.title ≠ "" ∨ r.text ≠ "" then
      { r with index := k } :: emitRecordsFrom base (k + 1) its
    else emitRecordsFrom base (k + 1) its

/-- The emission loop with Python's starting index 1. -/
def emitRecords (base : String) (items : List Node) : List ListRecord :=
  emitRecordsFrom base 1 items

/-- The result-domain keyword vocabulary of the auto-detection scorer. -/
def resultKeywords : List String :=
  ["result", "admit", "card", "exam", "job", "notification", "form", "out",
   "start"]

/-- Does a list item contain a link (`li.find('a', href=True)`)? -/
def liHasLink (li : Node) : Bool := (findAnchorHref li).isSome

/-- Number of the first five items whose text contains a result keyword. -/
def keywordMatches (items : List Node) : Nat :=
  ((items.take 5).filter (fun li =>
    resultKeywords.any (fun kw => pyContains (pyLower (getTextStrip li)) kw))).length

/-- The auto-detection score of a candidate list.  Python computes
`link_ratio = links_count / len(list_items)` in binary64 and compares it
with the literals `0.7` and `0.5`; for every feasible list length these
comparisons coincide with the exact rational tests `10·links ≥ 7·n` and
`2·links ≥ n` used here. -/
def scoreList (items : List Node) : Nat :=
  let n := items.length
  let links := (items.filter liHasLink).length
  let km := keywordMatches items
  (if 10 * links ≥ 7 * n then 3 else if 2 * links ≥ n then 2 else 0) +
    (if km ≥ 3 then 2 else if km ≥ 2 then 1 else 0) +
    (if n ≥ 10 then 1 else 0)

/-- One auto-detection candidate: the list element, its direct `li`
children, and its score. -/
structure Candidate where
  listElem : Node
  items : List Node
  score : Nat
deriving DecidableEq

/-- The `candidate_lists` built from every `ul`/`ol` with at least three
direct `li` children and score at least 3, in document order. -/
def candidatesOf (doc : Node) : List Candidate :=
  (findAllTags doc ["ul", "ol"]).filterMap (fun l =>
    let items := directChildren l ["li"]
    if items.length ≥ 3 then
      let s := scoreList items
      if s ≥ 3 then some ⟨l, items, s⟩ else none
    else none)

/-- First candidate of maximal score.  Python sorts `candidate_lists`
descending by score with the stable `list.sort` and takes element 0, which
is exactly the earliest candidate attaining the maximum. -/
def pickBest (c : Candidate) : List Candidate → Candidate
  | [] => c
  | d :: ds => if d.score > c.score then pickBest d ds else pickBest c ds

/-- `candidate_lists.sort(key=score, reverse=True); candidate_lists[0]`. -/
def bestCandidate : List Candidate → Option Candidate
  | [] => none
  | c :: cs => some (pickBest c cs)

/-- The heading vocabulary of the auto-detection fallback (Method 2). -/
def sectionKeywords : List String :=
  ["result", "admit", "job", "notification", "exam", "recruitment"]

/-- Does the element's `class` attribute match `re.compile(r'title|heading|header', re.I)`?
bs4 tests the regex against each class token; since the three alternatives
contain no whitespace this is equivalent to a case-insensitive substring
test on the raw attribute value. -/
def classTitleLike (n : Node) : Bool :=
  match n.attr "class" with
  | some v =>
    let vl := pyLower v
    pyContains vl "title" || pyContains vl "heading" || pyContains vl "header"
  | none => false

/-- The items examined at one ancestor level of the Method-2 fallback:
direct `li`/`a` children, else the direct `li` children of the first
embedded `ul`/`ol`. -/
def fallbackItems (ancestor : Node) : List Node :=
  let items := directChildren ancestor ["li", "a"]
  if items ≠ [] then items
  else
    match findFirstTag ancestor ["ul", "ol"] with
    | some lc => directChildren lc ["li"]
    | none => []

/-- The Method-2 fallback of `scrape_result_list`: for each
title/heading/header-classed `h1`–`h4`/`div`/`span` whose text contains a
section keyword, walk up to four ancestor levels and return the first
non-empty emission from at least three `li`/`a` items. -/
def fallbackRecords (doc : Node) (base : String) : Option (List ListRecord) :=
  ((ctxAll doc).filter (fun c =>
      c.node.tagIn ["h1", "h2", "h3", "h4", "div", "span"] && classTitleLike c.node)).findSome?
    (fun c =>
      let ht := pyLower (getTextStrip c.node)
      if sectionKeywords.any (fun kw => pyContains ht kw) then
        ((c.chain.map Prod.fst).take 4).findSome? (fun ancestor =>
          let items := fallbackItems ancestor
          if items ≠ [] ∧ items.length ≥ 3 then
            let rs := emitRecords base items
            if rs ≠ [] then some rs else none
          else none)
      else none)

/-- The advisory message returned when every strategy yields nothing. -/
def noListsMsg : String :=
  "No result lists found. Try:\n1. Specify a section name (e.g., " ++ sq ++
    "Results" ++ sq ++ ", " ++ sq ++ "Admit Cards" ++ sq ++
    ")\n2. Specify a CSS selector for list items (e.g., " ++ sq ++ "ul li" ++
    sq ++ ", " ++ sq ++ ".result-list li" ++ sq ++ ")"

/-- The runtime result shape of `scrape_result_list`: a list of record
dictionaries or a bare message string. -/
inductive ListResult where
  | records (rs : List ListRecord)
  | msg (s : String)
deriving DecidableEq

/-- `scrape_result_list(url, None, None)` — the auto-detection path taken
when neither a section name nor a list selector is supplied (the two
guarded branches for `list_selector` and `section_name` are skipped). -/
def scrape_result_list_auto (doc : Node) (base : String) : ListResult :=
  let fromBest :=
    match bestCandidate (candidatesOf doc) with
    | some c =>
      let rs := emitRecords base c.items
      if rs ≠ [] then some rs else none
    | none => none
  match fromBest with
  | some rs => .records rs
  | none =>
    match fallbackRecords doc base with
    | some rs => .records rs
    | none => .msg noListsMsg

/-! ### `scrape_card_results`

The card detector drives everything through CSS selectors; the selectors it
actually uses are single simple selectors (tag, class token, attribute
substring, attribute equality), modelled by `Sel`.  `select` returns the
matching descendants in document order, as soupsieve does. -/

inductive Sel where
  | tagSel (t : String)
  | classSel (c : String)
  | attrSub (a v : String)
  | attrEq (a v : String)
deriving DecidableEq

/-- Does a single simple selector match an element? -/
def selMatches (s : Sel) (n : Node) : Bool :=
  match s with
  | .tagSel t => n.isTag t
  | .classSel c => (pySplit (n.attrD "class" "")).contains c
  | .attrSub a v =>
    match n.attr a with
    | some x => pyContains x v
    | none => false
  | .attrEq a v => n.attr a = some v

/-- `element.select(sel)`: matching descendants in document order. -/
def select (n : Node) (s : Sel) : List Node :=
  (descendants n).filter (selMatches s)

/-- `element.select_one(sel)`. -/
def selectOne (n : Node) (s : Sel) : Option Node :=
  (select n s).head?

/-- The `common_selectors` list of `scrape_card_results`, in source order. -/
def cardSelectors : List Sel :=
  [.classSel "card", .classSel "result-card", .classSel "item-card",
   .classSel "card-item", .attrSub "class" "card", .classSel "result-item",
   .classSel "item", .attrSub "class" "result", .classSel "product-card",
   .classSel "product-item", .attrSub "data-testid" "card",
   .attrSub "class" "grid-item", .classSel "search-result",
   .attrSub "class" "search-result", .tagSel "article", .attrEq "role" "article"]

/-- The `title_selectors` of `extract_card_data`, in source order. -/
def titleSelectors : List Sel :=
  [.tagSel "h1", .tagSel "h2", .tagSel "h3", .tagSel "h4", .classSel "title",
   .attrSub "class" "title", .attrSub "class" "name", .classSel "card-title",
   .classSel "result-title"]

/-- The `desc_selectors` of `extract_card_data`, in source order. -/
def descSelectors : List Sel :=
  [.classSel "description", .classSel "desc", .attrSub "class" "desc",
   .tagSel "p", .classSel "text", .attrSub "class" "text",
   .classSel "summary", .attrSub "class" "summary"]

/-- A `CardRecord` as emitted by `scrape_card_results`. -/
structure CardRecord where
  index : Nat
  title : String
  description : String
  image : String
  link : String
  text : String
deriving DecidableEq

/-- `extract_card_data(card_element)` (without the index, assigned by the
caller). -/
def extract_card_data (base : String) (card : Node) : CardRecord :=
  let title0 :=
    match titleSelectors.findSome? (selectOne card) with
    | some te => getTextStrip te
    | none => ""
  let linkElem := findAnchorHref card
  let link :=
    match linkElem with
    | some a => normalize_url (a.attrD "href" "") base
    | none =>
      if card.isTag "a" ∧ card.attrD "href" "" ≠ "" then
        normalize_url (card.attrD "href" "") base
      else ""
  let image :=
    match findImg card with
    | some img =>
      match imgSrcAttr img with
      | some raw => normalize_image_url raw base
      | none => ""
    | none => ""
  let desc0 :=
    match descSelectors.findSome? (fun s =>
      match selectOne card s with
      | some de => if getTextStrip de ≠ "" then some (getTextStrip de) else none
      | none => none) with
    | some d => d
    | none => ""
  let (description, text) :=
    if desc0 = "" then
      let allText0 := getTextSepStrip card
      let allText := if title0 ≠ "" then pyStrip (removeFirst allText0 title0) else allText0
      let ws := pySplit allText
      if ws ≠ [] then (joinSpace (ws.take 50), joinSpace ws)
      else ("", allText)
    else (desc0, desc0)
  let title :=
    if title0 = "" then
      match linkElem with
      | some a => getTextStrip a
      | none =>
        let firstText := pyStrip (((getTextStrip card).data.splitOn '\n').headD []
          |> String.mk)
        if firstText ≠ "" ∧ firstText.length < 100 then
          String.mk (firstText.data.take 100)
        else ""
    else title0
  { index := 0, title := title, description := description, image := image,
    link := link, text := text }

/-- The emission loop of `scrape_card_results` (`enumerate(card_elements, 1)`
with the keep-filter `title or description or link`), starting at `k`. -/
def emitCardsFrom (base : String) (k : Nat) : List Node → List CardRecord
  | [] => []
  | cd :: cds =>
    let c := extract_card_data base cd
    if c.title ≠ "" ∨ c.description ≠ "" ∨ c.link ≠ "" then
      { c with index := k } :: emitCardsFrom base (k + 1) cds
    else emitCardsFrom base (k + 1) cds

/-- Card emission with Python's starting index 1. -/
def emitCards (base : String) (cards : List Node) : List CardRecord :=
  emitCardsFrom base 1 cards

/-- The runtime result shape of `scrape_card_results`. -/
inductive CardResult where
  | cards (cs : List CardRecord)
  | msg (s : String)
deriving DecidableEq

/-- The no-cards message of `scrape_card_results`. -/
def noCardsMsg : String :=
  "No cards found. Try specifying a custom CSS selector for the card elements."

/-- The cards-but-no-data message of `scrape_card_results`. -/
def noCardDataMsg : String :=
  "Found card elements but could not extract data from them."

/-- `scrape_card_results(url, None)` — automatic detection: the first common
selector with at least one match supplies the card elements. -/
def scrape_card_results_auto (doc : Node) (base : String) : CardResult :=
  let cardElems :=
    match cardSelectors.findSome? (fun s =>
      let ms := select doc s
      if ms ≠ [] then some ms else none) with
    | some ms => ms
    | none => []
  if cardElems = [] then .msg noCardsMsg
  else
    let cs := emitCards base cardElems
    if cs = [] then .msg noCardDataMsg
    else .cards cs

/-! ### Specification-side definitions

These definitions follow the wording of the specification (not the code)
and are compared with the translated code in the refinement theorems. -/

/-- Duplicate suppression keeping the first occurrence, relative to an
already-seen list. -/
def dedupFirstAux (seen : List String) : List String → List String
  | [] => []
  | x :: xs =>
    if x ∈ seen then dedupFirstAux seen xs
    else x :: dedupFirstAux (x :: seen) xs

/-- Duplicate suppression keeping the first occurrence. -/
def dedupFirst (l : List String) : List String := dedupFirstAux [] l

/-- The element-phase match texts of the keyword text search, in document
order, before duplicate suppression. -/
def elemMatchTexts (doc : Node) (keyword : String) (caseSensitive : Bool) :
    List String :=
  let d := removeScriptStyle doc
  let kwl := if caseSensitive then keyword else pyLower keyword
  (findAllTags d textTags).filterMap (elemMatchText caseSensitive kwl)

/-- The alt-phase placeholder texts of the keyword text search, in document
order, before duplicate suppression. -/
def altMatchTexts (doc : Node) (keyword : String) (caseSensitive : Bool) :
    List String :=
  let d := removeScriptStyle doc
  let kwl := if caseSensitive then keyword else pyLower keyword
  ((descendants d).filter (fun n => n.isTag "img" && n.hasAttr "alt")).filterMap
    (altMatchText caseSensitive kwl)

/-- Post-processing as the specification words it: collapse interior
whitespace per fragment, drop fragments duplicating an earlier normalised
fragment, drop fragments of at most 10 characters. -/
def specSurvivors (parts : List String) : List String :=
  (dedupFirst (parts.map collapseWs)).filter (fun n => 10 < n.length)

/-- The specification's candidate score, with the link fraction as an exact
rational. -/
def specScore (items : List Node) : Nat :=
  let n := items.length
  let ratio : ℚ := ((items.filter liHasLink).length : ℚ) / (n : ℚ)
  let km := keywordMatches items
  (if 7 / 10 ≤ ratio then 3 else if 1 / 2 ≤ ratio then 2 else 0) +
    (if 3 ≤ km then 2 else if 2 ≤ km then 1 else 0) +
    (if 10 ≤ n then 1 else 0)

/-- The specification's candidate set: every `ul`/`ol` with at least three
direct `li` children scoring at least 3, in document order. -/
def specCandidates (doc : Node) : List Candidate :=
  (findAllTags doc ["ul", "ol"]).filterMap (fun l =>
    let items := directChildren l ["li"]
    if 3 ≤ items.length ∧ 3 ≤ specScore items then
      some ⟨l, items, specScore items⟩
    else none)

/-- Largest score among a candidate list. -/
def maxScore : List Candidate → Nat
  | [] => 0
  | c :: cs => max c.score (maxScore cs)

/-- The specification's choice: the first candidate attaining the maximal
score (document order breaks ties). -/
def specBest (cs : List Candidate) : Option Candidate :=
  cs.find? (fun c => c.score = maxScore cs)

/-! ### Helper lemmas -/

theorem dedupFirstAux_congr {seen seen' : List String}
    (h : ∀ y, y ∈ seen ↔ y ∈ seen') :
    ∀ l, dedupFirstAux seen l = dedupFirstAux seen' l := by
  intro l
  induction l generalizing seen seen' with
  | nil => rfl
  | cons x xs ih =>
    simp only [dedupFirstAux]
    by_cases hx : x ∈ seen'
    · rw [if_pos ((h x).2 hx), if_pos hx, ih h]
    · rw [if_neg (fun hm => hx ((h x).1 hm)), if_neg hx]
      refine congrArg (x :: ·) (ih ?_)
      intro y
      simp only [List.mem_cons, h y]

theorem foldl_addIfNew_eq (l : List String) (hne : ∀ x ∈ l, x ≠ "") :
    ∀ acc, l.foldl addIfNew acc = acc ++ dedupFirstAux acc l := by
  induction l with
  | nil => intro acc; simp [dedupFirstAux]
  | cons x xs ih =>
    intro acc
    have hx : x ≠ "" := hne x (by simp)
    have hxs : ∀ y ∈ xs, y ≠ "" := fun y hy => hne y (by simp [hy])
    simp only [List.foldl_cons, dedupFirstAux]
    by_cases hc : x ∈ acc
    · have h1 : addIfNew acc x = acc := by simp [addIfNew, hc]
      rw [h1, if_pos hc, ih hxs]
    · have h1 : addIfNew acc x = acc ++ [x] := by simp [addIfNew, hx, hc]
      rw [h1, if_neg hc, ih hxs]
      have hcong : dedupFirstAux (acc ++ [x]) xs = dedupFirstAux (x :: acc) xs := by
        apply dedupFirstAux_congr
        intro y
        simp only [List.mem_append, List.mem_cons, List.mem_singleton]
        tauto
      rw [hcong]
      simp

theorem foldl_match_filterMap {α : Type} (f : α → Option String) :
    ∀ (l : List α) (acc : List String),
      l.foldl (fun acc el => match f el with
        | some s => addIfNew acc s
        | none => acc) acc = (l.filterMap f).foldl addIfNew acc := by
  intro l
  induction l with
  | nil => intro acc; rfl
  | cons x xs ih =>
    intro acc
    simp only [List.foldl_cons, List.filterMap_cons]
    cases hf : f x with
    | none => simpa [hf] using ih acc
    | some s => simp [hf, ih]

theorem length_pos_ne_empty {s : String} (h : 10 < s.length) : s ≠ "" := by
  intro he
  subst he
  simp [String.length] at h

theorem sectionSurvivors_eq_spec_aux :
    ∀ (ps : List String) (seen seen' : List String),
      (∀ y, 10 < y.length → (y ∈ seen ↔ y ∈ seen')) →
      sectionSurvivors seen ps =
        (dedupFirstAux seen' (ps.map collapseWs)).filter (fun n => 10 < n.length) := by
  intro ps
  induction ps with
  | nil => intro seen seen' _; rfl
  | cons p ps ih =>
    intro seen seen' h
    simp only [sectionSurvivors, List.map_cons, dedupFirstAux]
    by_cases hmem : collapseWs p ∈ seen'
    · rw [if_pos hmem]
      by_cases hlen : 10 < (collapseWs p).length
      · rw [if_neg (by
          intro hk
          exact hk.2.1 ((h _ hlen).2 hmem))]
        exact ih seen seen' h
      · rw [if_neg (by intro hk; exact hlen hk.2.2)]
        exact ih seen seen' h
    · rw [if_neg hmem]
      by_cases hlen : 10 < (collapseWs p).length
      · have hne : collapseWs p ≠ "" := length_pos_ne_empty hlen
        have hnotseen : collapseWs p ∉ seen := fun hm => hmem ((h _ hlen).1 hm)
        rw [if_pos ⟨hne, hnotseen, hlen⟩, List.filter_cons_of_pos (by simpa using hlen)]
        refine congrArg (collapseWs p :: ·) (ih _ _ ?_)
        intro y hy
        simp only [List.mem_cons, h y hy]
      · rw [if_neg (by intro hk; exact hlen hk.2.2),
          List.filter_cons_of_neg (by simpa using hlen)]
        refine ih seen _ ?_
        intro y hy
        constructor
        · intro hm
          exact List.mem_cons_of_mem _ ((h y hy).1 hm)
        · intro hm
          rcases List.mem_cons.1 hm with he | hm'
          · exact absurd (he ▸ hy) hlen
          · exact (h y hy).2 hm'

theorem sectionSurvivors_eq_spec (ps : List String) :
    sectionSurvivors [] ps = specSurvivors ps := by
  simpa [specSurvivors, dedupFirst] using
    sectionSurvivors_eq_spec_aux ps [] [] (fun _ _ => Iff.rfl)

/-- Whether `extract_result_item` keeps an item (its emitted record has a
non-empty title or text). -/
def keepsRecord (base : String) (it : Node) : Prop :=
  (extract_result_item base it).title ≠ "" ∨ (extract_result_item base it).text ≠ ""

instance (base : String) (it : Node) : Decidable (keepsRecord base it) := by
  unfold keepsRecord; infer_instance

theorem emitRecordsFrom_index_lb (base : String) :
    ∀ (its : List Node) (k : Nat) (r : ListRecord),
      r ∈ emitRecordsFrom base k its → k ≤ r.index := by
  intro its
  induction its with
  | nil => intro k r hr; cases hr
  | cons it its ih =>
    intro k r hr
    simp only [emitRecordsFrom] at hr
    by_cases hk : (extract_result_item base it).title ≠ "" ∨
        (extract_result_item base it).text ≠ ""
    · rw [if_pos hk] at hr
      rcases List.mem_cons.1 hr with he | hm
      · subst he; exact le_refl _
      · exact le_trans (Nat.le_succ k) (ih (k + 1) r hm)
    · rw [if_neg hk] at hr
      exact le_trans (Nat.le_succ k) (ih (k + 1) r hr)

theorem emitRecordsFrom_sorted (base : String) :
    ∀ (its : List Node) (k : Nat),
      List.Pairwise (· < ·) ((emitRecordsFrom base k its).map (·.index)) := by
  intro its
  induction its with
  | nil => intro k; simp [emitRecordsFrom]
  | cons it its ih =>
    intro k
    simp only [emitRecordsFrom]
    by_cases hk : (extract_result_item base it).title ≠ "" ∨
        (extract_result_item base it).text ≠ ""
    · rw [if_pos hk]
      simp only [List.map_cons]
      refine List.Pairwise.cons ?_ (ih (k + 1))
      intro i hi
      rcases List.mem_map.1 hi with ⟨r, hr, hri⟩
      have := emitRecordsFrom_index_lb base its (k + 1) r hr
      omega
    · rw [if_neg hk]
      exact ih (k + 1)

theorem emitRecordsFrom_indices (base : String) :
    ∀ (its : List Node) (k : Nat),
      (emitRecordsFrom base k its).map (·.index) =
        ((List.range' k its.length).zip its).filterMap
          (fun p => if keepsRecord base p.2 then some p.1 else none) := by
  intro its
  induction its with
  | nil => intro k; rfl
  | cons it its ih =>
    intro k
    simp only [emitRecordsFrom, List.length_cons, List.range'_succ, List.zip_cons_cons,
      List.filterMap_cons]
    by_cases hk : (extract_result_item base it).title ≠ "" ∨
        (extract_result_item base it).text ≠ ""
    · rw [if_pos hk]
      have : keepsRecord base it := hk
      simp only [if_pos this, List.map_cons, ih (k + 1)]
    · rw [if_neg hk]
      have : ¬ keepsRecord base it := hk
      simp only [if_neg this, ih (k + 1)]

theorem emitRecordsFrom_dense (base : String) :
    ∀ (its : List Node) (k : Nat), (∀ it ∈ its, keepsRecord base it) →
      (emitRecordsFrom base k its).map (·.index) = List.range' k its.length := by
  intro its
  induction its with
  | nil => intro k _; rfl
  | cons it its ih =>
    intro k hall
    simp only [emitRecordsFrom, List.length_cons, List.range'_succ]
    have hk : (extract_result_item base it).title ≠ "" ∨
        (extract_result_item base it).text ≠ "" := hall it (by simp)
    rw [if_pos hk]
    simp only [List.map_cons]
    rw [ih (k + 1) (fun x hx => hall x (by simp [hx]))]

/-- Whether `extract_card_data` keeps a card (non-empty title, description
or link). -/
def keepsCard (base : String) (cd : Node) : Prop :=
  (extract_card_data base cd).title ≠ "" ∨
    (extract_card_data base cd).description ≠ "" ∨
    (extract_card_data base cd).link ≠ ""

instance (base : String) (cd : Node) : Decidable (keepsCard base cd) := by
  unfold keepsCard; infer_instance

theorem emitCardsFrom_index_lb (base : String) :
    ∀ (cds : List Node) (k : Nat) (c : CardRecord),
      c ∈ emitCardsFrom base k cds → k ≤ c.index := by
  intro cds
  induction cds with
  | nil => intro k c hc; cases hc
  | cons cd cds ih =>
    intro k c hc
    simp only [emitCardsFrom] at hc
    by_cases hk : (extract_card_data base cd).title ≠ "" ∨
        (extract_card_data base cd).description ≠ "" ∨
        (extract_card_data base cd).link ≠ ""
    · rw [if_pos hk] at hc
      rcases List.mem_cons.1 hc with he | hm
      · subst he; exact le_refl _
      · exact le_trans (Nat.le_succ k) (ih (k + 1) c hm)
    · rw [if_neg hk] at hc
      exact le_trans (Nat.le_succ k) (ih (k + 1) c hc)

theorem emitCardsFrom_sorted (base : String) :
    ∀ (cds : List Node) (k : Nat),
      List.Pairwise (· < ·) ((emitCardsFrom base k cds).map (·.index)) := by
  intro cds
  induction cds with
  | nil => intro k; simp [emitCardsFrom]
  | cons cd cds ih =>
    intro k
    simp only [emitCardsFrom]
    by_cases hk : (extract_card_data base cd).title ≠ "" ∨
        (extract_card_data base cd).description ≠ "" ∨
        (extract_card_data base cd).link ≠ ""
    · rw [if_pos hk]
      simp only [List.map_cons]
      refine List.Pairwise.cons ?_ (ih (k + 1))
      intro i hi
      rcases List.mem_map.1 hi with ⟨c, hc, hci⟩
      have := emitCardsFrom_index_lb base cds (k + 1) c hc
      omega
    · rw [if_neg hk]
      exact ih (k + 1)

theorem pickBest_eq_find :
    ∀ (cs : List Candidate) (c : Candidate),
      some (pickBest c cs) =
        (c :: cs).find? (fun x => x.score = maxScore (c :: cs)) := by
  intro cs
  induction cs with
  | nil =>
    intro c
    simp [pickBest, maxScore, List.find?]
  | cons d ds ih =>
    intro c
    simp only [pickBest]
    by_cases hcd : d.score > c.score
    · rw [if_pos hcd]
      have hmax : maxScore (c :: d :: ds) = maxScore (d :: ds) := by
        have hle : maxScore (d :: ds) ≥ d.score := by
          simp [maxScore, le_max_left]
        simp only [maxScore]
        omega
      have hcne : ¬ (c.score = maxScore (c :: d :: ds)) := by
        rw [hmax]
        have : maxScore (d :: ds) ≥ d.score := by simp [maxScore, le_max_left]
        omega
      rw [List.find?_cons_of_neg _ (by simpa using hcne), hmax]
      exact ih d
    · rw [if_neg hcd]
      push_neg at hcd
      have hih := ih c
      have hskip : maxScore (c :: d :: ds) = maxScore (c :: ds) := by
        simp only [maxScore]
        omega
      rw [hskip]
      by_cases hc : c.score = maxScore (c :: ds)
      · rw [List.find?_cons_of_pos _ (by simpa using hc)]
        rw [List.find?_cons_of_pos _ (by simpa using hc)] at hih
        exact hih
      · rw [List.find?_cons_of_neg _ (by simpa using hc)]
        rw [List.find?_cons_of_neg _ (by simpa using hc)] at hih
        have hd : ¬ (d.score = maxScore (c :: ds)) := by
          have h1 : c.score ≤ maxScore (c :: ds) := by
            simp [maxScore, le_max_left]
          omega
        rw [List.find?_cons_of_neg _ (by simpa using hd)]
        exact hih

theorem bestCandidate_eq_specBest (cs : List Candidate) :
    bestCandidate cs = specBest cs := by
  cases cs with
  | nil => rfl
  | cons c cs => simpa [bestCandidate, specBest] using pickBest_eq_find cs c

theorem strStarts_append (p base s : String) (h : strStarts p base = true) :
    strStarts p (base ++ s) = true := by
  have hp : p.data <+: base.data := List.isPrefixOf_iff_prefix.1 h
  have : p.data <+: (base ++ s).data := by
    rw [String.data_append]
    exact hp.trans (List.prefix_append _ _)
  exact List.isPrefixOf_iff_prefix.2 this

theorem strStarts_https_of_protorel (u : String) (h : strStarts "//" u = true) :
    strStarts "https://" ("https:" ++ u) = true := by
  have hp : ("//" : String).data <+: u.data := List.isPrefixOf_iff_prefix.1 h
  rcases hp with ⟨t, ht⟩
  apply List.isPrefixOf_iff_prefix.2
  rw [String.data_append, ← ht]
  exact ⟨t, by simp⟩

/-- The absolute-URL shape of the specification's invariant: empty, an
explicit `http(s)://` form, or the result of resolution against the base. -/
def absUrlOk (base s : String) : Prop :=
  s = "" ∨ strStarts "http://" s = true ∨ strStarts "https://" s = true ∨
    ∃ raw, s = pyUrljoin base raw

theorem normalize_url_absOk (u base : String)
    (hb : strStarts "http://" base = true ∨ strStarts "https://" base = true) :
    absUrlOk base (normalize_url u base) := by
  unfold normalize_url absUrlOk
  by_cases h0 : u = ""
  · simp [h0]
  rw [if_neg h0]
  by_cases h1 : strStarts "//" u = true
  · rw [if_pos h1]
    exact Or.inr (Or.inr (Or.inl (strStarts_https_of_protorel u h1)))
  rw [if_neg h1]
  by_cases h2 : (strStarts "http://" u || strStarts "https://" u) = true
  · rw [if_pos h2]
    rcases Bool.or_eq_true_iff.1 h2 with h | h
    · exact Or.inr (Or.inl h)
    · exact Or.inr (Or.inr (Or.inl h))
  rw [if_neg h2]
  by_cases h3 : strStarts "/" u = true
  · rw [if_pos h3]
    exact Or.inr (Or.inr (Or.inr ⟨u, rfl⟩))
  rw [if_neg h3]
  by_cases h4 : strStarts "#" u = true
  · rw [if_pos h4]
    rcases hb with h | h
    · exact Or.inr (Or.inl (strStarts_append _ _ _ h))
    · exact Or.inr (Or.inr (Or.inl (strStarts_append _ _ _ h)))
  · rw [if_neg h4]
    exact Or.inr (Or.inr (Or.inr ⟨u, rfl⟩))

theorem normalize_image_url_absOk (u base : String) :
    absUrlOk base (normalize_image_url u base) := by
  unfold normalize_image_url absUrlOk
  by_cases h0 : u = ""
  · simp [h0]
  rw [if_neg h0]
  by_cases h1 : strStarts "//" u = true
  · rw [if_pos h1]
    exact Or.inr (Or.inr (Or.inl (strStarts_https_of_protorel u h1)))
  rw [if_neg h1]
  by_cases h2 : (strStarts "http://" u || strStarts "https://" u) = true
  · rw [if_pos h2]
    rcases Bool.or_eq_true_iff.1 h2 with h | h
    · exact Or.inr (Or.inl h)
    · exact Or.inr (Or.inr (Or.inl h))
  rw [if_neg h2]
  by_cases h3 : strStarts "/" u = true
  · rw [if_pos h3]
    exact Or.inr (Or.inr (Or.inr ⟨u, rfl⟩))
  · rw [if_neg h3]
    exact Or.inr (Or.inr (Or.inr ⟨u, rfl⟩))

theorem statusUpdate_link (r : ListRecord) :
    (if r.text ≠ "" then { r with status := extractStatus r.text } else r).link
      = r.link := by
  split <;> rfl

theorem extract_result_item_link (base : String) (it : Node) :
    (extract_result_item base it).link = "" ∨
      ∃ raw, (extract_result_item base it).link = normalize_url raw base := by
  cases h : findAnchorHref it with
  | some a =>
    right
    refine ⟨a.attrD "href" "", ?_⟩
    simp only [extract_result_item, h]
    split <;> (try split) <;> rfl
  | none =>
    simp only [extract_result_item, h]
    by_cases hc : it.isTag "a" = true ∧ it.attrD "href" "" ≠ ""
    · right
      refine ⟨it.attrD "href" "", ?_⟩
      rw [if_pos hc]
      split <;> (try split) <;> rfl
    · left
      rw [if_neg hc]
      split <;> (try split) <;> rfl

theorem extract_card_data_link (base : String) (cd : Node) :
    (extract_card_data base cd).link = "" ∨
      ∃ raw, (extract_card_data base cd).link = normalize_url raw base := by
  simp only [extract_card_data]
  cases h : findAnchorHref cd with
  | some a =>
    right
    refine ⟨a.attrD "href" "", ?_⟩
    simp only [h]
  | none =>
    simp only [h]
    by_cases hc : cd.isTag "a" = true ∧ cd.attrD "href" "" ≠ ""
    · right
      refine ⟨cd.attrD "href" "", ?_⟩
      rw [if_pos hc]
    · left
      rw [if_neg hc]

theorem extract_card_data_image (base : String) (cd : Node) :
    (extract_card_data base cd).image = "" ∨
      ∃ raw, (extract_card_data base cd).image = normalize_image_url raw base := by
  simp only [extract_card_data]
  cases h : findImg cd with
  | none => left; simp [h]
  | some img =>
    cases h2 : imgSrcAttr img with
    | none => left; simp [h, h2]
    | some raw =>
      right
      exact ⟨raw, by simp [h, h2]⟩

theorem emitRecordsFrom_mem (base : String) :
    ∀ (its : List Node) (k : Nat) (r : ListRecord),
      r ∈ emitRecordsFrom base k its →
        ∃ it ∈ its, ∃ j, r = { extract_result_item base it with index := j } := by
  intro its
  induction its with
  | nil => intro k r hr; cases hr
  | cons it its ih =>
    intro k r hr
    simp only [emitRecordsFrom] at hr
    by_cases hk : (extract_result_item base it).title ≠ "" ∨
        (extract_result_item base it).text ≠ ""
    · rw [if_pos hk] at hr
      rcases List.mem_cons.1 hr with he | hm
      · exact ⟨it, by simp, k, he⟩
      · rcases ih (k + 1) r hm with ⟨it', hit', j, hj⟩
        exact ⟨it', by simp [hit'], j, hj⟩
    · rw [if_neg hk] at hr
      rcases ih (k + 1) r hr with ⟨it', hit', j, hj⟩
      exact ⟨it', by simp [hit'], j, hj⟩

theorem emitCardsFrom_mem (base : String) :
    ∀ (cds : List Node) (k : Nat) (c : CardRecord),
      c ∈ emitCardsFrom base k cds →
        ∃ cd ∈ cds, ∃ j, c = { extract_card_data base cd with index := j } := by
  intro cds
  induction cds with
  | nil => intro k c hc; cases hc
  | cons cd cds ih =>
    intro k c hc
    simp only [emitCardsFrom] at hc
    by_cases hk : (extract_card_data base cd).title ≠ "" ∨
        (extract_card_data base cd).description ≠ "" ∨
        (extract_card_data base cd).link ≠ ""
    · rw [if_pos hk] at hc
      rcases List.mem_cons.1 hc with he | hm
      · exact ⟨cd, by simp, k, he⟩
      · rcases ih (k + 1) c hm with ⟨cd', hcd', j, hj⟩
        exact ⟨cd', by simp [hcd'], j, hj⟩
    · rw [if_neg hk] at hc
      rcases ih (k + 1) c hc with ⟨cd', hcd', j, hj⟩
      exact ⟨cd', by simp [hcd'], j, hj⟩

theorem fallbackRecords_shape (doc : Node) (base : String) (rs : List ListRecord)
    (h : fallbackRecords doc base = some rs) :
    rs ≠ [] ∧ ∃ its, rs = emitRecords base its := by
  unfold fallbackRecords at h
  rcases List.exists_of_findSome?_eq_some h with ⟨c, _, hc⟩
  by_cases ht : sectionKeywords.any
      (fun kw => pyContains (pyLower (getTextStrip c.node)) kw) = true
  · rw [if_pos ht] at hc
    rcases List.exists_of_findSome?_eq_some hc with ⟨anc, _, hanc⟩
    by_cases hi : fallbackItems anc ≠ [] ∧ (fallbackItems anc).length ≥ 3
    · rw [if_pos hi] at hanc
      by_cases hr : emitRecords base (fallbackItems anc) ≠ []
      · rw [if_pos hr] at hanc
        cases hanc
        exact ⟨hr, fallbackItems anc, rfl⟩
      · rw [if_neg hr] at hanc
        cases hanc
    · rw [if_neg hi] at hanc
      cases hanc
  · rw [if_neg ht] at hc
    cases hc

theorem scrape_result_list_auto_records (doc : Node) (base : String)
    (rs : List ListRecord) (h : scrape_result_list_auto doc base = .records rs) :
    rs ≠ [] ∧ ∃ its, rs = emitRecords base its := by
  unfold scrape_result_list_auto at h
  cases hb : bestCandidate (candidatesOf doc) with
  | some c =>
    rw [hb] at h
    dsimp only at h
    by_cases hr : emitRecords base c.items ≠ []
    · rw [if_pos hr] at h
      cases h
      exact ⟨hr, c.items, rfl⟩
    · rw [if_neg hr] at h
      cases hf : fallbackRecords doc base with
      | some rs' =>
        rw [hf] at h
        cases h
        exact fallbackRecords_shape doc base _ hf
      | none => rw [hf] at h; cases h
  | none =>
    rw [hb] at h
    dsimp only at h
    cases hf : fallbackRecords doc base with
    | some rs' =>
      rw [hf] at h
      cases h
      exact fallbackRecords_shape doc base _ hf
    | none => rw [hf] at h; cases h

theorem scoreList_eq_specScore (items : List Node) (h : items ≠ []) :
    scoreList items = specScore items := by
  have hn : 0 < items.length := List.length_pos.2 h
  have hnq : (0 : ℚ) < (items.length : ℚ) := by exact_mod_cast hn
  have i1 : (10 * (items.filter liHasLink).length ≥ 7 * items.length) ↔
      ((7 / 10 : ℚ) ≤ ((items.filter liHasLink).length : ℚ) / (items.length : ℚ)) := by
    rw [div_le_div_iff₀ (by norm_num : (0:ℚ) < 10) hnq]
    have hcast : ((7 : ℚ) * (items.length : ℚ) ≤
        ((items.filter liHasLink).length : ℚ) * 10) ↔
        7 * items.length ≤ (items.filter liHasLink).length * 10 := by
      exact_mod_cast Iff.rfl
    rw [hcast]
    omega
  have i2 : (2 * (items.filter liHasLink).length ≥ items.length) ↔
      ((1 / 2 : ℚ) ≤ ((items.filter liHasLink).length : ℚ) / (items.length : ℚ)) := by
    rw [div_le_div_iff₀ (by norm_num : (0:ℚ) < 2) hnq]
    have hcast : ((1 : ℚ) * (items.length : ℚ) ≤
        ((items.filter liHasLink).length : ℚ) * 2) ↔
        1 * items.length ≤ (items.filter liHasLink).length * 2 := by
      exact_mod_cast Iff.rfl
    rw [hcast]
    omega
  simp only [scoreList, specScore]
  rw [if_congr i1 rfl (if_congr i2 rfl rfl)]

theorem candidatesOf_eq_specCandidates (doc : Node) :
    candidatesOf doc = specCandidates doc := by
  unfold candidatesOf specCandidates
  apply List.filterMap_congr
  intro l _
  by_cases h3 : (directChildren l ["li"]).length ≥ 3
  · have hne : directChildren l ["li"] ≠ [] := by
      intro he
      rw [he] at h3
      simp at h3
    have hs := scoreList_eq_specScore _ hne
    rw [if_pos h3, hs]
    by_cases hsc : specScore (directChildren l ["li"]) ≥ 3
    · rw [if_pos hsc, if_pos ⟨h3, hsc⟩]
    · rw [if_neg hsc, if_neg (fun hk => hsc hk.2)]
  · rw [if_neg h3, if_neg (fun hk => h3 hk.1)]

theorem strStarts_head {p u : String} (h : strStarts p u = true) {c : Char}
    {cs : List Char} (hp : p.data = c :: cs) : u.data.head? = some c := by
  have hpre := List.isPrefixOf_iff_prefix.1 h
  rw [hp] at hpre
  rcases hpre with ⟨t, ht⟩
  rw [← ht]
  rfl

theorem strStarts_ne_empty {p u : String} (h : strStarts p u = true) {c : Char}
    {cs : List Char} (hp : p.data = c :: cs) : u ≠ "" := by
  intro he
  have := strStarts_head h hp
  rw [he] at this
  cases this

theorem notFound_ne_noContent (kw t : String) :
    notFoundHeadingMsg kw ≠ noContentMsg t := by
  intro h
  have hr1 : (notFoundHeadingMsg kw).data =
      ("Not found - No heading containing " : String).data ++
        (sq.data ++ (kw.data ++ (sq.data ++ (" was found" : String).data))) := by
    simp [notFoundHeadingMsg, String.data_append, List.append_assoc]
  have hr2 : (noContentMsg t).data =
      ("Found heading " : String).data ++
        (sq.data ++ (t.data ++ (sq.data ++
          (" but no content found below it" : String).data))) := by
    simp [noContentMsg, String.data_append, List.append_assoc]
  have hx : ("Not found - No heading containing " : String).data ++
      (sq.data ++ (kw.data ++ (sq.data ++ (" was found" : String).data))) =
      ("Found heading " : String).data ++
      (sq.data ++ (t.data ++ (sq.data ++
        (" but no content found below it" : String).data))) := by
    rw [← hr1, ← hr2, h]
  have hN : ("Not found - No heading containing " : String).data =
      'N' :: ("ot found - No heading containing " : String).data := rfl
  have hF : ("Found heading " : String).data =
      'F' :: ("ound heading " : String).data := rfl
  rw [hN, hF, List.cons_append, List.cons_append] at hx
  injection hx with hx1 _
  cases hx1

theorem emitCardsFrom_dense (base : String) :
    ∀ (cds : List Node) (k : Nat), (∀ cd ∈ cds, keepsCard base cd) →
      (emitCardsFrom base k cds).map (·.index) = List.range' k cds.length := by
  intro cds
  induction cds with
  | nil => intro k _; rfl
  | cons cd cds ih =>
    intro k hall
    simp only [emitCardsFrom, List.length_cons, List.range'_succ]
    have hk : (extract_card_data base cd).title ≠ "" ∨
        (extract_card_data base cd).description ≠ "" ∨
        (extract_card_data base cd).link ≠ "" := hall cd (by simp)
    rw [if_pos hk]
    simp only [List.map_cons]
    rw [ih (k + 1) (fun x hx => hall x (by simp [hx]))]

/-! ### Example documents

Small concrete pages used to witness and refute the claims. -/

/-- Element with no attributes. -/
def el (t : String) (cs : List Node) : Node := .elem t [] cs

/-- Element with attributes. -/
def elA (t : String) (attrs : List (String × String)) (cs : List Node) : Node :=
  .elem t attrs cs

/-- Text node. -/
def tx (s : String) : Node := .text s

/-- A parsed page: document root wrapping `html > body > content`. -/
def pageDoc (content : List Node) : Node :=
  el "[document]" [el "html" [el "body" content]]

/-- The page URL used by the examples. -/
def exBase : String := "https://example.com/page"

/-- Page with no keyword matches for the text search. -/
def docT0 : Node := pageDoc [el "p" [tx "nothing here"]]

/-- Page with exactly one text match for `kw`. -/
def docT1 : Node := pageDoc [el "p" [tx "alpha kw one"]]

/-- Page with two text matches for `kw`. -/
def docT2 : Node :=
  pageDoc [el "p" [tx "alpha kw one"], el "p" [tx "beta kw two"]]

/-- Page with exactly one image matching `logo`. -/
def docImg1 : Node :=
  pageDoc [elA "img" [("alt", "logo big"), ("src", "https://cdn.x.com/l.png")] []]

/-- Page whose only image does not match `logo`. -/
def docImg0 : Node :=
  pageDoc [elA "img" [("alt", "banner pic"), ("src", "https://cdn.x.com/b.png")] []]

/-- Page with exactly one link matching `contact`. -/
def docL1 : Node :=
  pageDoc [elA "a" [("href", "https://x.com/contact")] [tx "Contact us"]]

/-- Image placed before the matching paragraph, for the ordering claim. -/
def docC3 : Node :=
  pageDoc [elA "img" [("alt", "kw pic"), ("src", "https://cdn.x.com/p.png")] [],
    el "p" [tx "kw text here"]]

/-- A result list whose first item carries a link with empty text (the
record is filtered out), followed by three normal linked items. -/
def liEmpty : Node := el "li" [elA "a" [("href", "/x")] []]

/-- Second list item. -/
def liB : Node := el "li" [elA "a" [("href", "/r2")] [tx "Beta two"]]

/-- Third list item. -/
def liC : Node := el "li" [elA "a" [("href", "/r3")] [tx "Gamma three"]]

/-- Fourth list item. -/
def liD : Node := el "li" [elA "a" [("href", "/r4")] [tx "Delta four"]]

/-- The candidate list of `docC2`. -/
def ulC2 : Node := el "ul" [liEmpty, liB, liC, liD]

/-- Page exercising the auto-detected list path with one filtered item. -/
def docC2 : Node := pageDoc [ulC2]

/-- Page with zero `ul`/`ol` elements on which the Method-2 heading
fallback of `scrape_result_list` still finds records (three direct anchor
children next to a `title`-classed span containing `Results`). -/
def docC8 : Node :=
  pageDoc [el "div" [elA "span" [("class", "title")] [tx "Latest Results"],
    elA "a" [("href", "https://x.com/1")] [tx "Alpha one"],
    elA "a" [("href", "https://x.com/2")] [tx "Bravo two"],
    elA "a" [("href", "https://x.com/3")] [tx "Charlie three"]]]

/-- Page with no matching `h2`/`h3` heading. -/
def docH0 : Node := pageDoc [el "p" [tx "hello world"]]

/-- Page with a matching heading followed only by a ≤10-character fragment. -/
def docH1 : Node := pageDoc [el "h2" [tx "Pricing"], el "p" [tx "short"]]

/-- Page with a matching heading, one surviving fragment and a closing
heading. -/
def docH2 : Node :=
  pageDoc [el "h2" [tx "Pricing"],
    el "p" [tx "This is the detailed pricing information"],
    el "h2" [tx "Contact"], el "p" [tx "After section"]]

/-- One card with a title, a relative link and a protocol-relative image. -/
def cardDiv : Node :=
  elA "div" [("class", "card")] [el "h3" [tx "Card Title"],
    elA "a" [("href", "/c1")] [tx "Open"],
    elA "img" [("src", "//cdn.x.com/c.png")] []]

/-- Page with one card. -/
def docCard : Node := pageDoc [cardDiv]

/-! ### Claim theorems -/

/-- C1, counterexample: `search_image_by_keyword` does not follow the
tri-state result shape — a document with exactly one matching image yields
a one-element sequence (not the scalar match itself), and a document with
zero matching images yields the empty sequence (not a NotFoundMarker
carrying a message). -/
theorem C1_image_not_tristate :
    search_image_by_keyword docImg1 exBase "logo" = ["https://cdn.x.com/l.png"] ∧
    search_image_by_keyword docImg0 exBase "logo" = [] := by
  decide

/-- C1, amended: the text and link keyword searches follow the tri-state
shape — zero matches give the documented NotFound string, exactly one match
gives the scalar match itself, two or more matches give the ordered
sequence.  The image keyword search is exempt: it always returns the bare
sequence of URLs (see the counterexample). -/
theorem C1_tristate_amended :
    (∀ (doc : Node) (kw : String) (cs : Bool),
      (foundTexts doc kw cs = [] →
        search_text_by_keyword doc kw cs = .str (notFoundTextMsg kw)) ∧
      (∀ x, foundTexts doc kw cs = [x] →
        search_text_by_keyword doc kw cs = .str x) ∧
      (∀ x y l, foundTexts doc kw cs = x :: y :: l →
        search_text_by_keyword doc kw cs = .list (foundTexts doc kw cs))) ∧
    (∀ (doc : Node) (base kw : String),
      (foundLinks doc base kw = [] →
        search_link_by_keyword doc base kw = .str (notFoundLinkMsg kw)) ∧
      (∀ x, foundLinks doc base kw = [x] →
        search_link_by_keyword doc base kw = .str x) ∧
      (∀ x y l, foundLinks doc base kw = x :: y :: l →
        search_link_by_keyword doc base kw = .list (foundLinks doc base kw))) := by
  constructor
  · intro doc kw cs
    refine ⟨fun h => ?_, fun x h => ?_, fun x y l h => ?_⟩ <;>
      · unfold search_text_by_keyword
        rw [h]
  · intro doc base kw
    refine ⟨fun h => ?_, fun x h => ?_, fun x y l h => ?_⟩ <;>
      · unfold search_link_by_keyword
        rw [h]

/-- C1, witness for the amended theorem on concrete pages. -/
theorem C1_tristate_amended_witness :
    (foundTexts docT0 "kw" false = [] ∧
      search_text_by_keyword docT0 "kw" false = .str (notFoundTextMsg "kw")) ∧
    (foundTexts docT1 "kw" false = ["alpha kw one"] ∧
      search_text_by_keyword docT1 "kw" false = .str "alpha kw one") ∧
    (foundTexts docT2 "kw" false = ["alpha kw one", "beta kw two"] ∧
      search_text_by_keyword docT2 "kw" false =
        .list (foundTexts docT2 "kw" false)) ∧
    (foundLinks docL1 exBase "contact" = ["https://x.com/contact"] ∧
      search_link_by_keyword docL1 exBase "contact" =
        .str "https://x.com/contact") :=
  ⟨⟨by decide, (C1_tristate_amended.1 docT0 "kw" false).1 (by decide)⟩,
   ⟨by decide, (C1_tristate_amended.1 docT1 "kw" false).2.1 _ (by decide)⟩,
   ⟨by decide, (C1_tristate_amended.1 docT2 "kw" false).2.2
     "alpha kw one" "beta kw two" [] (by decide)⟩,
   ⟨by decide, (C1_tristate_amended.2 docL1 exBase "contact").2.1 _ (by decide)⟩⟩

/-- C2, counterexample: on `docC2` the auto-detected list has four raw
items, the first of which is filtered out (its anchor has empty text), and
the emitted indices are `[2, 3, 4]` — not the dense `1..n` the claim
requires. -/
theorem C2_indices_gap :
    scrape_result_list_auto docC2 exBase = .records
      [⟨2, "Beta two", "https://example.com/r2", "Beta two", ""⟩,
       ⟨3, "Gamma three", "https://example.com/r3", "Gamma three", ""⟩,
       ⟨4, "Delta four", "https://example.com/r4", "Delta four", ""⟩] ∧
    ([(2 : Nat), 3, 4] ≠ List.range' 1 3) := by
  decide

/-- C2, amended: emitted indices equal the 1-based positions of the
surviving items within the raw candidate sequence; they are therefore
strictly increasing, and they are exactly `1..n` precisely on documents
where no raw item is filtered out — for list records and card records
alike. -/
theorem C2_indices_amended :
    (∀ (base : String) (k : Nat) (its : List Node),
      List.Pairwise (· < ·) ((emitRecordsFrom base k its).map (·.index))) ∧
    (∀ (base : String) (its : List Node),
      (emitRecords base its).map (·.index) =
        ((List.range' 1 its.length).zip its).filterMap
          (fun p => if keepsRecord base p.2 then some p.1 else none)) ∧
    (∀ (base : String) (its : List Node), (∀ it ∈ its, keepsRecord base it) →
      (emitRecords base its).map (·.index) = List.range' 1 its.length) ∧
    (∀ (base : String) (k : Nat) (cds : List Node),
      List.Pairwise (· < ·) ((emitCardsFrom base k cds).map (·.index))) ∧
    (∀ (base : String) (cds : List Node), (∀ cd ∈ cds, keepsCard base cd) →
      (emitCards base cds).map (·.index) = List.range' 1 cds.length) :=
  ⟨fun base k its => emitRecordsFrom_sorted base its k,
   fun base its => emitRecordsFrom_indices base its 1,
   fun base its h => emitRecordsFrom_dense base its 1 h,
   fun base k cds => emitCardsFrom_sorted base cds k,
   fun base cds h => emitCardsFrom_dense base cds 1 h⟩

/-- C2, witness: with every raw item surviving, the emitted indices are
exactly `1..3`. -/
theorem C2_indices_amended_witness :
    (emitRecords exBase [liB, liC, liD]).map (·.index) = List.range' 1 3 :=
  C2_indices_amended.2.2.1 exBase [liB, liC, liD] (by decide)

/-- C3, counterexample: on `docC3` the image (whose alt text matches)
precedes the matching paragraph in document order, yet the search lists the
`[Image Alt Text]` placeholder after the element match — alt entries are
appended in a second phase, not interleaved at their document-order
position. -/
theorem C3_alt_order :
    search_text_by_keyword docC3 "kw" false =
      .list ["kw text here", "[Image Alt Text] kw pic"] ∧
    search_text_by_keyword docC3 "kw" false ≠
      .list ["[Image Alt Text] kw pic", "kw text here"] := by
  decide

/-- C3, amended: the match list consists of the element-text matches in
document order followed by the alt-text placeholders in document order,
with duplicates (identical rendered text) suppressed keeping the first
occurrence across the concatenation. -/
theorem C3_order_amended :
    ∀ (doc : Node) (kw : String) (cs : Bool),
      foundTexts doc kw cs =
        dedupFirst (elemMatchTexts doc kw cs ++ altMatchTexts doc kw cs) := by
  intro doc kw cs
  have hfold : foundTexts doc kw cs =
      (elemMatchTexts doc kw cs ++ altMatchTexts doc kw cs).foldl addIfNew [] := by
    unfold foundTexts elemMatchTexts altMatchTexts
    rw [List.foldl_append, foldl_match_filterMap, foldl_match_filterMap]
  rw [hfold]
  have hne : ∀ x ∈ elemMatchTexts doc kw cs ++ altMatchTexts doc kw cs, x ≠ "" := by
    intro x hx
    rcases List.mem_append.1 hx with hx | hx
    · rcases List.mem_filterMap.1 hx with ⟨el, _, hel⟩
      unfold elemMatchText at hel
      by_cases h1 : getTextStrip el ≠ "" ∧
          pyContains (if cs then getTextStrip el
            else pyLower (getTextStrip el)) (if cs then kw else pyLower kw) = true
      · rw [if_pos h1] at hel
        by_cases h2 : getTextSepStrip el ≠ ""
        · rw [if_pos h2] at hel
          cases hel
          exact h2
        · rw [if_neg h2] at hel
          cases hel
      · rw [if_neg h1] at hel
        cases hel
    · rcases List.mem_filterMap.1 hx with ⟨img, _, himg⟩
      unfold altMatchText at himg
      by_cases h1 : img.attrD "alt" "" ≠ "" ∧
          pyContains (if cs then img.attrD "alt" ""
            else pyLower (img.attrD "alt" "")) (if cs then kw else pyLower kw) = true
      · rw [if_pos h1] at himg
        cases himg
        intro he
        have hd := congrArg String.data he
        rw [String.data_append] at hd
        cases hd
      · rw [if_neg h1] at himg
        cases himg
  rw [foldl_addIfNew_eq _ hne []]
  rfl

/-- C4: the two non-content terminal results of `scrape_section_by_heading`
are exactly the documented messages — the heading-not-found message when no
`h2`/`h3` heading matches, and the no-content message (naming the heading's
text) when a heading matches but post-processing leaves no survivors — and
the two messages can never coincide. -/
theorem C4_section_terminals :
    (∀ (doc : Node) (kw : String),
      targetHeading (removeScriptStyle doc) (pyLower kw) = none →
        scrape_section_by_heading doc kw = notFoundHeadingMsg kw) ∧
    (∀ (doc : Node) (kw : String) (t : Ctx),
      targetHeading (removeScriptStyle doc) (pyLower kw) = some t →
      sectionSurvivors [] (sectionParts (removeScriptStyle doc) t) = [] →
        scrape_section_by_heading doc kw = noContentMsg (getTextStrip t.node)) ∧
    (∀ kw t, notFoundHeadingMsg kw ≠ noContentMsg t) := by
  refine ⟨?_, ?_, notFound_ne_noContent⟩
  · intro doc kw h
    simp only [scrape_section_by_heading]
    rw [h]
  · intro doc kw t ht hs
    simp only [scrape_section_by_heading]
    rw [ht]
    dsimp only
    rw [if_neg (by simp [hs])]

/-- C4, witness: both terminal messages reached on concrete pages. -/
theorem C4_section_terminals_witness :
    (targetHeading (removeScriptStyle docH0) (pyLower "pricing") = none ∧
      scrape_section_by_heading docH0 "pricing" = notFoundHeadingMsg "pricing") ∧
    scrape_section_by_heading docH1 "pricing" = noContentMsg "Pricing" :=
  ⟨⟨by decide, C4_section_terminals.1 docH0 "pricing" (by decide)⟩,
   C4_section_terminals.2.1 docH1 "pricing"
     ⟨el "h2" [tx "Pricing"], [el "p" [tx "short"]],
      [(el "body" [el "h2" [tx "Pricing"], el "p" [tx "short"]], []),
       (el "html" [el "body" [el "h2" [tx "Pricing"], el "p" [tx "short"]]], []),
       (docH1, [])]⟩
     (by decide) (by decide)⟩

/-- C5: whenever the collection chain yields fragments and post-processing
leaves survivors, the returned section text is exactly the survivors joined
with single spaces, and the survivor computation coincides with the
specification's description (collapse whitespace per fragment, drop
duplicates of an earlier normalised fragment, drop fragments of at most 10
characters). -/
theorem C5_postprocess :
    ∀ (doc : Node) (kw : String) (t : Ctx),
      targetHeading (removeScriptStyle doc) (pyLower kw) = some t →
      sectionParts (removeScriptStyle doc) t ≠ [] →
      sectionSurvivors [] (sectionParts (removeScriptStyle doc) t) ≠ [] →
        scrape_section_by_heading doc kw =
          joinSpace (specSurvivors (sectionParts (removeScriptStyle doc) t)) ∧
        sectionSurvivors [] (sectionParts (removeScriptStyle doc) t) =
          specSurvivors (sectionParts (removeScriptStyle doc) t) := by
  intro doc kw t ht _ hs
  constructor
  · simp only [scrape_section_by_heading]
    rw [ht]
    dsimp only
    rw [if_pos hs, sectionSurvivors_eq_spec]
  · exact sectionSurvivors_eq_spec _

/-- C5, witness on a concrete page with one surviving fragment. -/
theorem C5_postprocess_witness :
    scrape_section_by_heading docH2 "pricing" =
      "This is the detailed pricing information" :=
  (C5_postprocess docH2 "pricing"
    ⟨el "h2" [tx "Pricing"],
     [el "p" [tx "This is the detailed pricing information"],
      el "h2" [tx "Contact"], el "p" [tx "After section"]],
     [(el "body" [el "h2" [tx "Pricing"],
        el "p" [tx "This is the detailed pricing information"],
        el "h2" [tx "Contact"], el "p" [tx "After section"]], []),
      (el "html" [el "body" [el "h2" [tx "Pricing"],
        el "p" [tx "This is the detailed pricing information"],
        el "h2" [tx "Contact"], el "p" [tx "After section"]]], []),
      (docH2, [])]⟩
    (by decide) (by decide) (by decide)).1

/-- C6, counterexample: the image normalisers carry no `#` branch; on a
base URL that itself contains a fragment, resolving `#b` via `urljoin`
replaces the old fragment instead of concatenating, so the shared-rule
claim (`#` → base + fragment by string concatenation, for every
URL-producing component) fails. -/
theorem C6_fragment_not_concat :
    normalize_image_url "#b" "https://example.com/page#a" =
      "https://example.com/page#b" ∧
    normalize_image_url "#b" "https://example.com/page#a" ≠
      "https://example.com/page#a" ++ "#b" := by
  decide

/-- C6, amended: all normalisers share the rules for protocol-relative,
absolute, root-relative and plain relative fragments; for `#`-fragments
the link normalisers concatenate base + fragment while the image
normalisers resolve against the base via `urljoin` (the two coincide
whenever the base URL contains no `#`).  The two documented scenarios
hold. -/
theorem C6_normalization_amended :
    (∀ u base, strStarts "//" u = true →
      normalize_image_url u base = "https:" ++ u ∧
      normalize_link_url u base = "https:" ++ u ∧
      normalize_url u base = "https:" ++ u) ∧
    (∀ u base, (strStarts "http://" u = true ∨ strStarts "https://" u = true) →
      normalize_image_url u base = u ∧ normalize_link_url u base = u ∧
      normalize_url u base = u) ∧
    (∀ u base, strStarts "#" u = true →
      normalize_link_url u base = base ++ u ∧
      normalize_url u base = base ++ u ∧
      normalize_image_url u base = pyUrljoin base u) ∧
    (∀ u base, strStarts "/" u = true → strStarts "//" u = false →
      normalize_image_url u base = pyUrljoin base u ∧
      normalize_link_url u base = pyUrljoin base u ∧
      normalize_url u base = pyUrljoin base u) ∧
    (normalize_image_url "//cdn.x.com/a.png" "https://example.com/page" =
      "https://cdn.x.com/a.png") ∧
    (normalize_image_url "/a.png" "https://example.com/page" =
      "https://example.com/a.png") := by
  refine ⟨?_, ?_, ?_, ?_, by decide, by decide⟩
  · intro u base h
    have hne : u ≠ "" := strStarts_ne_empty h rfl
    refine ⟨?_, ?_, ?_⟩ <;>
      simp only [normalize_image_url, normalize_link_url, normalize_url,
        if_neg hne, h, if_true]
  · intro u base h
    have hh : u.data.head? = some 'h' := by
      rcases h with h | h
      · exact strStarts_head h rfl
      · exact strStarts_head h rfl
    have hne : u ≠ "" := by
      rcases h with h | h
      · exact strStarts_ne_empty h rfl
      · exact strStarts_ne_empty h rfl
    have hpr : strStarts "//" u = false := by
      cases hs : strStarts "//" u
      · rfl
      · have := strStarts_head hs rfl
        rw [hh] at this
        cases this
    have habs : (strStarts "http://" u || strStarts "https://" u) = true :=
      Bool.or_eq_true_iff.2 h
    refine ⟨?_, ?_, ?_⟩ <;>
      simp only [normalize_image_url, normalize_link_url, normalize_url,
        if_neg hne, hpr, Bool.false_eq_true, if_false, habs, if_true]
  · intro u base h
    have hh : u.data.head? = some '#' := strStarts_head h rfl
    have hne : u ≠ "" := strStarts_ne_empty h rfl
    have hclash : ∀ (q : String) (d : Char) (ds : List Char), q.data = d :: ds →
        d ≠ '#' → strStarts q u = false := by
      intro q d ds hq hd
      cases hs : strStarts q u
      · rfl
      · have := strStarts_head hs hq
        rw [hh] at this
        injection this with h3
        exact absurd h3.symm hd
    have h1 : strStarts "//" u = false := hclash _ '/' _ rfl (by decide)
    have h2 : strStarts "http://" u = false := hclash _ 'h' _ rfl (by decide)
    have h3 : strStarts "https://" u = false := hclash _ 'h' _ rfl (by decide)
    have h4 : strStarts "/" u = false := hclash _ '/' _ rfl (by decide)
    refine ⟨?_, ?_, ?_⟩ <;>
      simp only [normalize_image_url, normalize_link_url, normalize_url,
        if_neg hne, h1, h2, h3, h4, Bool.or_self, Bool.false_eq_true, if_false,
        h, if_true]
  · intro u base h hpr
    have hne : u ≠ "" := strStarts_ne_empty h rfl
    have hh : u.data.head? = some '/' := strStarts_head h rfl
    have hclash : ∀ (q : String) (d : Char) (ds : List Char), q.data = d :: ds →
        d ≠ '/' → strStarts q u = false := by
      intro q d ds hq hd
      cases hs : strStarts q u
      · rfl
      · have := strStarts_head hs hq
        rw [hh] at this
        injection this with h3
        exact absurd h3.symm hd
    have h2 : strStarts "http://" u = false := hclash _ 'h' _ rfl (by decide)
    have h3 : strStarts "https://" u = false := hclash _ 'h' _ rfl (by decide)
    refine ⟨?_, ?_, ?_⟩ <;>
      simp only [normalize_image_url, normalize_link_url, normalize_url,
        if_neg hne, hpr, h2, h3, Bool.or_self, Bool.false_eq_true, if_false,
        h, if_true]

/-- C6, witness for the amended normalisation rules at concrete inputs. -/
theorem C6_normalization_amended_witness :
    normalize_image_url "//cdn.x.com/b.png" exBase = "https://cdn.x.com/b.png" ∧
    normalize_link_url "https://x.com/q" exBase = "https://x.com/q" ∧
    normalize_link_url "#top" exBase = exBase ++ "#top" ∧
    normalize_url "/r" exBase = pyUrljoin exBase "/r" :=
  ⟨(C6_normalization_amended.1 "//cdn.x.com/b.png" exBase (by decide)).1,
   (C6_normalization_amended.2.1 "https://x.com/q" exBase (Or.inr (by decide))).2.1,
   (C6_normalization_amended.2.2.1 "#top" exBase (by decide)).1,
   (C6_normalization_amended.2.2.2.1 "/r" exBase (by decide) (by decide)).2.2⟩

/-- C7: the auto-detection of `scrape_result_list` scores and selects
candidate lists exactly as specified — the code's integer scoring equals
the specification's fraction-threshold scoring, the candidate set is every
`ul`/`ol` with at least three direct `li` children scoring at least 3, the
selected candidate is the first one attaining the maximal score, and the
extracted records come from that list. -/
theorem C7_scoring :
    (∀ items : List Node, items ≠ [] → scoreList items = specScore items) ∧
    (∀ doc : Node, candidatesOf doc = specCandidates doc) ∧
    (∀ cs : List Candidate, bestCandidate cs = specBest cs) ∧
    (∀ (doc : Node) (base : String) (c : Candidate),
      bestCandidate (candidatesOf doc) = some c →
      emitRecords base c.items ≠ [] →
        scrape_result_list_auto doc base = .records (emitRecords base c.items)) := by
  refine ⟨scoreList_eq_specScore, candidatesOf_eq_specCandidates,
    bestCandidate_eq_specBest, ?_⟩
  intro doc base c hb hr
  unfold scrape_result_list_auto
  rw [hb]
  dsimp only
  rw [if_pos hr]

/-- C7, witness: the concrete page `docC2` scores its single candidate and
extracts from it. -/
theorem C7_scoring_witness :
    scoreList [liEmpty, liB, liC, liD] = specScore [liEmpty, liB, liC, liD] ∧
    scrape_result_list_auto docC2 exBase =
      .records (emitRecords exBase [liEmpty, liB, liC, liD]) :=
  ⟨C7_scoring.1 [liEmpty, liB, liC, liD] (by decide),
   C7_scoring.2.2.2 docC2 exBase ⟨ulC2, [liEmpty, liB, liC, liD], 3⟩
     (by decide) (by decide)⟩

/-- C8, counterexample: a page with zero `ul`/`ol` elements on which the
auto-detection path still yields records (the Method-2 heading fallback
accepts direct anchor children), so "no `ul`/`ol`" does not imply the
advisory InfoMarker. -/
theorem C8_no_lists_still_records :
    findAllTags docC8 ["ul", "ol"] = [] ∧
    scrape_result_list_auto docC8 exBase = .records
      [⟨1, "Alpha one", "https://x.com/1", "Alpha one", ""⟩,
       ⟨2, "Bravo two", "https://x.com/2", "Bravo two", ""⟩,
       ⟨3, "Charlie three", "https://x.com/3", "Charlie three", ""⟩] ∧
    scrape_result_list_auto docC8 exBase ≠ .msg noListsMsg := by
  decide

/-- C8, amended: with no section name and no selector the auto-detection
either returns a non-empty record sequence (some strategy yielded records)
or exactly the advisory InfoMarker instructing the caller to supply a
section name or list selector — never an empty sequence and, the embedding
being total, never an exception. -/
theorem C8_advisory_amended :
    ∀ (doc : Node) (base : String),
      scrape_result_list_auto doc base = .msg noListsMsg ∨
      ∃ rs, scrape_result_list_auto doc base = .records rs ∧ rs ≠ [] := by
  intro doc base
  unfold scrape_result_list_auto
  cases hb : bestCandidate (candidatesOf doc) with
  | some c =>
    dsimp only
    by_cases hr : emitRecords base c.items ≠ []
    · rw [if_pos hr]
      right
      exact ⟨_, rfl, hr⟩
    · rw [if_neg hr]
      cases hf : fallbackRecords doc base with
      | some rs =>
        right
        exact ⟨rs, rfl, (fallbackRecords_shape doc base rs hf).1⟩
      | none =>
        left
        rfl
  | none =>
    dsimp only
    cases hf : fallbackRecords doc base with
    | some rs =>
      right
      exact ⟨rs, rfl, (fallbackRecords_shape doc base rs hf).1⟩
    | none =>
      left
      rfl

/-- C9: under an absolute base URL, every link and image field of every
emitted list record and card record is empty, an explicit `http(s)://`
URL, or the result of resolution against the base — a relative form is
never emitted; likewise for every record sequence the auto-detection
returns. -/
theorem C9_absolute_urls :
    (∀ (base : String) (k : Nat) (its : List Node),
      (strStarts "http://" base = true ∨ strStarts "https://" base = true) →
      ∀ r ∈ emitRecordsFrom base k its, absUrlOk base r.link) ∧
    (∀ (base : String) (k : Nat) (cds : List Node),
      (strStarts "http://" base = true ∨ strStarts "https://" base = true) →
      ∀ c ∈ emitCardsFrom base k cds,
        absUrlOk base c.link ∧ absUrlOk base c.image) ∧
    (∀ (doc : Node) (base : String) (rs : List ListRecord),
      (strStarts "http://" base = true ∨ strStarts "https://" base = true) →
      scrape_result_list_auto doc base = .records rs →
      ∀ r ∈ rs, absUrlOk base r.link) := by
  have hrec : ∀ (base : String) (k : Nat) (its : List Node),
      (strStarts "http://" base = true ∨ strStarts "https://" base = true) →
      ∀ r ∈ emitRecordsFrom base k its, absUrlOk base r.link := by
    intro base k its hb r hr
    rcases emitRecordsFrom_mem base its k r hr with ⟨it, _, j, hj⟩
    have hlink : r.link = (extract_result_item base it).link := by
      rw [hj]
    rw [hlink]
    rcases extract_result_item_link base it with h | ⟨raw, h⟩
    · rw [h]
      exact Or.inl rfl
    · rw [h]
      exact normalize_url_absOk raw base hb
  refine ⟨hrec, ?_, ?_⟩
  · intro base k cds hb c hc
    rcases emitCardsFrom_mem base cds k c hc with ⟨cd, _, j, hj⟩
    have hlink : c.link = (extract_card_data base cd).link := by rw [hj]
    have himage : c.image = (extract_card_data base cd).image := by rw [hj]
    constructor
    · rw [hlink]
      rcases extract_card_data_link base cd with h | ⟨raw, h⟩
      · rw [h]; exact Or.inl rfl
      · rw [h]; exact normalize_url_absOk raw base hb
    · rw [himage]
      rcases extract_card_data_image base cd with h | ⟨raw, h⟩
      · rw [h]; exact Or.inl rfl
      · rw [h]; exact normalize_image_url_absOk raw base
  · intro doc base rs hb hres r hr
    rcases (scrape_result_list_auto_records doc base rs hres).2 with ⟨its, hits⟩
    rw [hits] at hr
    exact hrec base 1 its hb r hr

/-- C9, witness on concrete emissions. -/
theorem C9_absolute_urls_witness :
    absUrlOk exBase
      (ListRecord.link ⟨2, "Beta two", "https://example.com/r2", "Beta two", ""⟩) ∧
    absUrlOk exBase
      (CardRecord.image ⟨1, "Card Title", "Open", "https://cdn.x.com/c.png",
        "https://example.com/c1", "Open"⟩) :=
  ⟨C9_absolute_urls.1 exBase 1 [liEmpty, liB, liC, liD] (Or.inr (by decide))
     ⟨2, "Beta two", "https://example.com/r2", "Beta two", ""⟩ (by decide),
   (C9_absolute_urls.2.1 exBase 1 [cardDiv] (Or.inr (by decide))
     ⟨1, "Card Title", "Open", "https://cdn.x.com/c.png",
      "https://example.com/c1", "Open"⟩ (by decide)).2⟩

/-- C10: every emitted list record has its title equal to its text —
per-item extraction assigns both from the same source string on every
branch — and hence so does every record sequence the auto-detection
returns. -/
theorem C10_title_eq_text :
    (∀ (base : String) (k : Nat) (its : List Node),
      ∀ r ∈ emitRecordsFrom base k its, r.title = r.text) ∧
    (∀ (doc : Node) (base : String) (rs : List ListRecord),
      scrape_result_list_auto doc base = .records rs →
      ∀ r ∈ rs, r.title = r.text) := by
  have hitem : ∀ (base : String) (it : Node),
      (extract_result_item base it).title = (extract_result_item base it).text := by
    intro base it
    cases h : findAnchorHref it with
    | some a =>
      simp only [extract_result_item, h]
      split <;> (try split) <;> rfl
    | none =>
      simp only [extract_result_item, h]
      by_cases hc : it.isTag "a" = true ∧ it.attrD "href" "" ≠ ""
      · rw [if_pos hc]
        split <;> (try split) <;> rfl
      · rw [if_neg hc]
        split <;> (try split) <;> rfl
  have hrec : ∀ (base : String) (k : Nat) (its : List Node),
      ∀ r ∈ emitRecordsFrom base k its, r.title = r.text := by
    intro base k its r hr
    rcases emitRecordsFrom_mem base its k r hr with ⟨it, _, j, hj⟩
    rw [hj]
    exact hitem base it
  refine ⟨hrec, ?_⟩
  intro doc base rs hres r hr
  rcases (scrape_result_list_auto_records doc base rs hres).2 with ⟨its, hits⟩
  rw [hits] at hr
  exact hrec base 1 its r hr

/-- C10, witness on a concrete emission. -/
theorem C10_title_eq_text_witness :
    ListRecord.title ⟨2, "Beta two", "https://example.com/r2", "Beta two", ""⟩ =
      ListRecord.text ⟨2, "Beta two", "https://example.com/r2", "Beta two", ""⟩ :=
  C10_title_eq_text.1 exBase 1 [liEmpty, liB, liC, liD]
    ⟨2, "Beta two", "https://example.com/r2", "Beta two", ""⟩ (by decide)

end WebScraper
